import Mathlib

set_option maxHeartbeats 1000000

/-!
A shallow embedding of the coq-of-ts translation pipeline.

The TypeScript AST consumed by the compiler is modelled as the single
inductive `Node`, with one constructor per syntax kind the source code
inspects (the source dispatches on `ts.isX(node)` / `node.kind` tests over
a dynamically shaped `ts.Node`).  The process-wide diagnostics sink
(`error.ts`) is modelled in writer style: every fallible compilation
function returns its value paired with the list of `{message, node}`
diagnostics it appended, in the JavaScript evaluation order of the source.
`Error.raise(default, node, message)` evaluates its default argument first
and then pushes one diagnostic, so a call site appends the default's
diagnostics followed by the raise's own message.

The type-checker queries (`Typ.getTypName`, backed by the out-of-scope
`ts.TypeChecker`) are modelled as an oracle function `getTypName : Node →
String` passed explicitly to the expression compiler, per the narrow
capability interface the specification describes.

Modelling conventions for the handful of spots where the source uses a
TypeScript non-null assertion (`property.type!`, `declaration.initializer!`,
etc.): the asserted field is an `Option` in the model and the `none` case
is given an explicit placeholder value, marked by a comment at each spot.
Numeric literals keep their source text (the `Number(...)`/`JSON.stringify`
round trip of the host language is abstracted as the identity on that text).
-/

/-- Prefix unary operator tokens, from `compilePrefixUnaryOperator` in
`expression.ts` (the TypeScript `PrefixUnaryOperator` token union). -/
inductive UnOp where
  | plusPlus
  | minusMinus
  | exclamation
  | tilde
  | plus
  | minus
  deriving DecidableEq, Repr

/-- The payload of a `Constant` target expression: `boolean | number |
string`.  Numbers keep their source text. -/
inductive ConstVal where
  | bool (b : Bool)
  | num (s : String)
  | str (s : String)
  deriving DecidableEq, Repr

/-- The TypeScript syntax tree, restricted to the node kinds the source
inspects.  `switchStatement` inlines the `caseBlock.clauses` list.
A parsed string-literal type is a `literalType` wrapping a
`stringLiteral`; the bare `stringLiteral` constructor also stands for a
`ts.StringLiteral` in type position, which `compileIfPlainTyp` tests for
explicitly. -/
inductive Node where
  -- identifiers and literals
  | identifier (text : String)
  | stringLiteral (text : String)
  | numericLiteral (text : String)
  | trueKeyword
  | falseKeyword
  | nullKeyword
  -- type nodes
  | anyKeyword
  | arrayType (elementType : Node)
  | booleanKeyword
  | neverKeyword
  | functionType (parameters : List Node) (returnType : Node) (typeParameters : List Node)
  | typeReference (typeName : Node) (typeArguments : List Node)
  | numberKeyword
  | typeLiteral (members : List Node)
  | stringKeyword
  | thisType
  | tupleType (elements : List Node)
  | typeQuery
  | unionType (types : List Node)
  | voidKeyword
  | literalType (literal : Node)
  | otherTypeNode
  -- type elements (members of a type literal)
  | propertySignature (name : Node) (typ : Option Node)
  | otherTypeElement
  -- parameters and type parameters
  | parameter (name : Node) (typ : Option Node)
  | typeParameter (name : Node)
  -- expressions
  | arrayLiteralExpression (elements : List Node)
  | arrowFunction (parameters : List Node) (typeParameters : List Node) (body : Node)
  | functionExpression (parameters : List Node) (typeParameters : List Node) (body : Node)
  | asExpression (expression : Node) (typ : Node)
  | binaryExpression (left : Node) (operatorText : String) (right : Node)
  | callExpression (expression : Node) (arguments : List Node)
  | conditionalExpression (condition : Node) (whenTrue : Node) (whenFalse : Node)
  | propertyAccessExpression (expression : Node) (name : Node)
  | objectLiteralExpression (properties : List Node)
  | prefixUnaryExpression (operator : UnOp) (operand : Node)
  | otherExpression
  -- object literal elements
  | propertyAssignment (name : Node) (initializer : Node)
  | shorthandPropertyAssignment (name : Node)
  | spreadAssignment (expression : Node)
  | otherObjectLiteralElement
  -- statements
  | block (statements : List Node)
  | returnStatement (expression : Option Node)
  | switchStatement (expression : Node) (clauses : List Node)
  | variableStatement (declarations : List Node)
  | otherStatement
  -- clauses and declarations
  | caseClause (expression : Node) (statements : List Node)
  | defaultClause (statements : List Node)
  | variableDeclaration (name : Node) (typ : Option Node) (initializer : Option Node)
  -- binding patterns
  | objectBindingPattern (elements : List Node)
  | arrayBindingPattern
  | bindingElement (dotDotDot : Bool) (propertyName : Option Node) (name : Node)
  -- top-level declarations
  | functionDeclaration (name : Option Node) (parameters : List Node) (typeParameters : List Node) (body : Node)
  | typeAliasDeclaration (name : Node) (typ : Node)

/-- One entry of the diagnostics sink (`error.ts`: `{message, node}`). -/
structure Diag where
  message : String
  node : Node

/-- Source `Error.raise(defaultValue, node, message)`: push one diagnostic and
return the caller-supplied default. -/
def Error.raise {α : Type} (defaultValue : α) (node : Node) (message : String) :
    α × List Diag :=
  (defaultValue, [⟨message, node⟩])

/-- The target type algebra (`typ.ts`, `Typ.t`). -/
inductive Typ where
  | Function (params : List Typ) (returnTyp : Typ) (typParams : List String)
  | Implicit
  | Tuple (params : List Typ)
  | Variable (name : String) (params : List Typ)

/-- Source `Typ.unit`: the sentinel `Variable("unit", [])`. -/
def Typ.unit : Typ := .Variable ("unit") []

/-- Source `PlainTypOrRest` from `typ.ts`: either a compiled plain type or the
original node marked as needing classification context. -/
inductive PlainTypOrRest where
  | PlainTyp (typ : Typ)
  | Rest (typ : Node)

/-- Source `identifier.ts`: `Identifier.compile(node)` returns the identifier's
text, or raises and falls back to `"unknown"`. -/
def Identifier.compile (node : Node) : String × List Diag :=
  match node with
  | .identifier text => (text, [])
  | _ => Error.raise ("unknown") node ("Expected an identifier")

mutual

/-- Source `typ.ts`: `compileIfPlainTyp(typ)`, the chain of `ts.isX` tests in
source order.  Note that a parsed string-literal type is a `literalType`
node, which none of the tests match (the `ts.isStringLiteral` test only
matches a bare `stringLiteral` in type position), so it falls through to
the final raise. -/
def Typ.compileIfPlainTyp (typ : Node) : PlainTypOrRest × List Diag :=
  match typ with
  | .anyKeyword =>
      Error.raise (.PlainTyp .Implicit) typ ("The type `any` is not handled")
  | .arrayType elementType =>
      let (t, d) := Typ.compile elementType
      (.PlainTyp (.Variable ("list") [t]), d)
  | .booleanKeyword => (.PlainTyp (.Variable ("bool") []), [])
  | .neverKeyword => (.PlainTyp (.Variable ("Empty_set") []), [])
  | .functionType parameters returnType typeParameters =>
      let (params, d1) := Typ.compileParamTypes parameters
      let (returnTyp, d2) := Typ.compile returnType
      let (typParams, d3) := Typ.compileTypeParamNames typeParameters
      (.PlainTyp (.Function params returnTyp typParams), d1 ++ d2 ++ d3)
  | .typeReference typeName _typeArguments =>
      let (name, d) := Identifier.compile typeName
      (.PlainTyp (.Variable name []), d)
  | .nullKeyword => (.PlainTyp Typ.unit, [])
  | .numberKeyword => (.PlainTyp (.Variable ("Z") []), [])
  | .typeLiteral members =>
      if members.isEmpty then (.PlainTyp Typ.unit, [])
      else (.Rest typ, [])
  | .stringLiteral _ => (.Rest typ, [])
  | .stringKeyword => (.PlainTyp (.Variable ("string") []), [])
  | .thisType =>
      Error.raise (.PlainTyp Typ.unit) typ ("The type `this` is not handled")
  | .tupleType [e] =>
      let (t, d) := Typ.compile e
      (.PlainTyp t, d ++ [⟨("Tuple types with exactly one element are not handled"), typ⟩])
  | .tupleType elements =>
      let (params, d) := Typ.compileList elements
      (.PlainTyp (.Tuple params), d)
  | .typeQuery =>
      Error.raise (.PlainTyp .Implicit) typ
        ("Extracting the type of values with `typeof` is not handled")
  | .unionType _ => (.Rest typ, [])
  | .voidKeyword => (.PlainTyp Typ.unit, [])
  | _ => Error.raise (.PlainTyp .Implicit) typ ("Unhandled kind of type")
  termination_by (sizeOf typ, 0)

/-- Source `typ.ts`: `compile(typ)`, which raises when a `Rest` result escapes to
a plain-type position.  The final catch-all of the source (`return
compiledTyp.typ`, unreachable because `Rest` only ever holds one of the
three shapes below) is modelled as `Implicit`. -/
def Typ.compile (typ : Node) : Typ × List Diag :=
  let (compiledTyp, d) := Typ.compileIfPlainTyp typ
  match compiledTyp with
  | .PlainTyp t => (t, d)
  | .Rest restNode =>
      match restNode with
      | .typeLiteral _ =>
          let (t, d2) := Error.raise Typ.unit restNode
            ("This kind of object type is not handled outside of type definitions")
          (t, d ++ d2)
      | .stringLiteral _ =>
          let (t, d2) := Error.raise Typ.unit restNode
            ("String literal types are not handled outside of type definitions")
          (t, d ++ d2)
      | .unionType _ =>
          let (t, d2) := Error.raise Typ.unit restNode
            ("Union types are not handled outside of type definitions")
          (t, d ++ d2)
      | _ => (.Implicit, d)
  termination_by (sizeOf typ, 1)

/-- Source `typ.parameters.map(({type}) => (type ? Typ.compile(type) : Implicit))`
over a function type's parameter list. -/
def Typ.compileParamTypes (parameters : List Node) : List Typ × List Diag :=
  match parameters with
  | [] => ([], [])
  | p :: rest =>
      let (t, d1) :=
        match p with
        | .parameter _ (some ty) => Typ.compile ty
        | _ => ((.Implicit : Typ), ([] : List Diag))
      let (ts, d2) := Typ.compileParamTypes rest
      (t :: ts, d1 ++ d2)
  termination_by (sizeOf parameters, 0)

/-- Source `typeParameters.map((parameter) => Identifier.compile(parameter.name))`.
A node that is not a type parameter has no `name`; it is handed to
`Identifier.compile` itself, which raises. -/
def Typ.compileTypeParamNames (typeParameters : List Node) : List String × List Diag :=
  match typeParameters with
  | [] => ([], [])
  | p :: rest =>
      let (n, d1) :=
        match p with
        | .typeParameter name => Identifier.compile name
        | other => Identifier.compile other
      let (ns, d2) := Typ.compileTypeParamNames rest
      (n :: ns, d1 ++ d2)
  termination_by (sizeOf typeParameters, 0)

/-- Source `typ.elements.map((typ) => Typ.compile(typ))`. -/
def Typ.compileList (typs : List Node) : List Typ × List Diag :=
  match typs with
  | [] => ([], [])
  | t :: rest =>
      let (t1, d1) := Typ.compile t
      let (ts, d2) := Typ.compileList rest
      (t1 :: ts, d1 ++ d2)
  termination_by (sizeOf typs, 0)

end

example : Typ.compile (.tupleType []) = (.Tuple [], []) := by
  simp [Typ.compile, Typ.compileIfPlainTyp, Typ.compileList]

example : Typ.compile (.typeLiteral []) = (Typ.unit, []) := by
  simp [Typ.compile, Typ.compileIfPlainTyp]

example :
    Typ.compile (.arrayType .numberKeyword) = (.Variable ("list") [.Variable ("Z") []], []) := by
  simp [Typ.compile, Typ.compileIfPlainTyp]

/-- A field of a `Record` type definition or of a `Sum` constructor:
`{name, typ}`. -/
structure TypField where
  name : String
  typ : Typ

/-- A `Sum` constructor: `{name, fields}` (`typ-definition.ts`,
`Constructor`). -/
structure Constructor where
  name : String
  fields : List TypField

/-- The classified type definition (`typ-definition.ts`, `t`). -/
inductive TypDefinition where
  | Enum (names : List String)
  | Record (fields : List TypField)
  | Sum (constructors : List Constructor)
  | Synonym (typ : Typ)

/-- Source `typ-definition.ts`: `getStringOfLiteralType(typ)` — a string literal
type is a `LiteralTypeNode` whose `literal` is a `StringLiteral`. -/
def TypDefinition.getStringOfLiteralType (typ : Node) : String × List Diag :=
  match typ with
  | .literalType (.stringLiteral text) => (text, [])
  | _ => Error.raise ("Unknown") typ ("Expected a string literal type")

/-- Source `typs.map((typ) => getStringOfLiteralType(typ))` inside
`compileStringEnum`. -/
def TypDefinition.stringsOfLiteralTypes (typs : List Node) : List String × List Diag :=
  match typs with
  | [] => ([], [])
  | t :: rest =>
      let (s, d1) := TypDefinition.getStringOfLiteralType t
      let (ss, d2) := TypDefinition.stringsOfLiteralTypes rest
      (s :: ss, d1 ++ d2)

/-- Source `typ-definition.ts`: `compileStringEnum(typs)`. -/
def TypDefinition.compileStringEnum (typs : List Node) : TypDefinition × List Diag :=
  let (names, d) := TypDefinition.stringsOfLiteralTypes typs
  (.Enum names, d)

/-- The `typ.members.reduce` of `compileSumType`: partition the property
signatures into those named `type` and the rest, keeping for each the
property node, its name node and its optional type node (the source keeps
the `ts.PropertySignature` nodes and re-reads those fields later).
Members that are not property signatures are skipped. -/
def TypDefinition.partitionMembers (members : List Node) :
    (List (Node × Node × Option Node) × List (Node × Node × Option Node)) × List Diag :=
  match members with
  | [] => (([], []), [])
  | property :: rest =>
      match property with
      | .propertySignature name otyp =>
          let (n, d1) := Identifier.compile name
          let ((nameProps, fieldProps), d2) := TypDefinition.partitionMembers rest
          if n = ("type") then
            (((property, name, otyp) :: nameProps, fieldProps), d1 ++ d2)
          else
            ((nameProps, (property, name, otyp) :: fieldProps), d1 ++ d2)
      | _ => TypDefinition.partitionMembers rest

/-- Source `fieldProperties.map((property) => ({name: Identifier.compile(property.name),
typ: property.type ? Typ.compile(property.type) : Error.raise(Typ.unit,
property, 'Missing type')}))`. -/
def TypDefinition.compileConstructorFields (fieldProperties : List (Node × Node × Option Node)) :
    List TypField × List Diag :=
  match fieldProperties with
  | [] => ([], [])
  | (property, name, otyp) :: rest =>
      let (n, d1) := Identifier.compile name
      let (t, d2) :=
        match otyp with
        | some ty => Typ.compile ty
        | none => Error.raise Typ.unit property ("Missing type")
      let (fs, d3) := TypDefinition.compileConstructorFields rest
      (⟨n, t⟩ :: fs, d1 ++ d2 ++ d3)

/-- The body of the `typs.map` inside `compileSumType`: one constructor per
union member. -/
def TypDefinition.compileConstructor (typ : Node) : Constructor × List Diag :=
  match typ with
  | .typeLiteral members =>
      let ((nameProperties, fieldProperties), d0) := TypDefinition.partitionMembers members
      match nameProperties.head? with
      | none =>
          let (c, d1) := Error.raise (⟨("UnkownConstructor"), []⟩ : Constructor) typ
            ("Expected at least one field with the name `type`")
          (c, d0 ++ d1)
      | some (namePropertyNode, _, onameTyp) =>
          let (cname, d1) :=
            match onameTyp with
            | some ty => TypDefinition.getStringOfLiteralType ty
            | none => Error.raise ("UnkownConstructor") namePropertyNode ("Missing constructor name")
          let (flds, d2) := TypDefinition.compileConstructorFields fieldProperties
          (⟨cname, flds⟩, d0 ++ d1 ++ d2)
  | _ => Error.raise (⟨("NonObject"), []⟩ : Constructor) typ ("Expected an Object type")

/-- Source `typs.map(...)` of `compileSumType`. -/
def TypDefinition.compileConstructorList (typs : List Node) : List Constructor × List Diag :=
  match typs with
  | [] => ([], [])
  | t :: rest =>
      let (c, d1) := TypDefinition.compileConstructor t
      let (cs, d2) := TypDefinition.compileConstructorList rest
      (c :: cs, d1 ++ d2)

/-- Source `typ-definition.ts`: `compileSumType(typs)`. -/
def TypDefinition.compileSumType (typs : List Node) : TypDefinition × List Diag :=
  let (constructors, d) := TypDefinition.compileConstructorList typs
  (.Sum constructors, d)

/-- Source `compiledTyp.typ.members.some((property) => ts.isPropertySignature(property)
&& Identifier.compile(property) === 'type')` — note that the source passes
the property node itself (not `property.name`) to `Identifier.compile`, so
the test raises `Expected an identifier` for every property signature and
never returns `true`.  Short-circuiting `some` is modelled faithfully. -/
def TypDefinition.withATypeField (members : List Node) : Bool × List Diag :=
  match members with
  | [] => (false, [])
  | property :: rest =>
      match property with
      | .propertySignature _ _ =>
          let (n, d1) := Identifier.compile property
          if n = ("type") then (true, d1)
          else
            let (b, d2) := TypDefinition.withATypeField rest
            (b, d1 ++ d2)
      | _ => TypDefinition.withATypeField rest

/-- Source `compiledTyp.typ.members.map(...)` of the `Record` branch.  The source
reads `property.type!`; an absent type annotation would make the host
language abort there, modelled as `Implicit` with no diagnostic. -/
def TypDefinition.recordFields (members : List Node) : List TypField × List Diag :=
  match members with
  | [] => ([], [])
  | property :: rest =>
      let (f, d1) :=
        match property with
        | .propertySignature name otyp =>
            let (n, dn) := Identifier.compile name
            let (t, dt) :=
              match otyp with
              | some ty => Typ.compile ty
              | none => ((.Implicit : Typ), ([] : List Diag))  -- `property.type!` absent: host crash
            ((⟨n, t⟩ : TypField), dn ++ dt)
        | _ => Error.raise (⟨("unknown"), Typ.unit⟩ : TypField) property ("Expected named property")
      let (fs, d2) := TypDefinition.recordFields rest
      (f :: fs, d1 ++ d2)

/-- Source `typ-definition.ts`: `compile(typ)`, the classifier.  The `Rest` branch
replays the source's `ts.isX` tests in order; a `Rest` never holds a
`literalType` node (see `Typ.compileIfPlainTyp`), so the single-string
`compileStringEnum` branch is unreachable, and `withATypeField` is always
`false`, so the single-object `compileSumType` branch is unreachable too.
An empty union would make the source abort on `types[0]!`; it is modelled
as the final raise. -/
def TypDefinition.compile (typ : Node) : TypDefinition × List Diag :=
  let (compiledTyp, d) := Typ.compileIfPlainTyp typ
  match compiledTyp with
  | .PlainTyp t => (.Synonym t, d)
  | .Rest restNode =>
      match restNode with
      | .typeLiteral members =>
          let (withType, d1) := TypDefinition.withATypeField members
          if withType then
            let (s, d2) := TypDefinition.compileSumType [restNode]
            (s, d ++ d1 ++ d2)
          else
            let (fields, d2) := TypDefinition.recordFields members
            (.Record fields, d ++ d1 ++ d2)
      | .literalType _ =>
          let (e, d1) := TypDefinition.compileStringEnum [restNode]
          (e, d ++ d1)
      | .unionType ((.typeLiteral members) :: restTypes) =>
          let (s, d1) := TypDefinition.compileSumType ((.typeLiteral members) :: restTypes)
          (s, d ++ d1)
      | .unionType ((.literalType lit) :: restTypes) =>
          let (e, d1) := TypDefinition.compileStringEnum ((.literalType lit) :: restTypes)
          (e, d ++ d1)
      | _ =>
          let (syn, d1) := Error.raise (.Synonym Typ.unit : TypDefinition) restNode
            ("Only handle unions of strings or objects with a `type` field")
          (syn, d ++ d1)

example :
    TypDefinition.compile (.typeLiteral [.propertySignature (.identifier ("a")) (some .stringKeyword)])
      = (.Record [⟨("a"), .Variable ("string") []⟩],
         [⟨("Expected an identifier"), .propertySignature (.identifier ("a")) (some .stringKeyword)⟩]) := by
  simp [TypDefinition.compile, Typ.compileIfPlainTyp, TypDefinition.withATypeField,
    TypDefinition.recordFields, Identifier.compile, Typ.compile, Error.raise]

example :
    (TypDefinition.compile (.unionType
        [.typeLiteral [.propertySignature (.identifier ("type"))
          (some (.literalType (.stringLiteral ("Foo"))))]])).1
      = .Sum [⟨("Foo"), []⟩] := by
  simp [TypDefinition.compile, Typ.compileIfPlainTyp, TypDefinition.compileSumType,
    TypDefinition.compileConstructorList, TypDefinition.compileConstructor,
    TypDefinition.partitionMembers, TypDefinition.compileConstructorFields,
    TypDefinition.getStringOfLiteralType, Identifier.compile]

/-- Source `expression.ts`, `LeftValueRecordField`: maps a source field name to a
local binding name (the source field `variable` is a Lean keyword, renamed
`varName`). -/
structure LeftValueRecordField where
  name : String
  varName : String

/-- Source `expression.ts`, `LeftValue`. -/
inductive LeftValue where
  | Record (fields : List LeftValueRecordField) (record : String)
  | Variable (name : String)

/-- Source `expression.ts`, `FunArgument`. -/
structure FunArgument where
  name : String
  typ : Option Typ

mutual

/-- The target expression algebra (`expression.ts`, `t`).  The source field
`instance` of `EnumInstance` is a Lean keyword, renamed `instanceName`; the
source field `typeAnnotation` of `TypeCastExpression` is renamed
`typeAnnot`. -/
inductive Expression where
  | ArrayExpression (elements : List Expression)
  | BinaryExpression (left : Expression) (operator : String) (right : Expression)
  | CallExpression (arguments : List Expression) (callee : Expression)
  | ConditionalExpression (alternate : Expression) (consequent : Expression) (test : Expression)
  | Constant (value : ConstVal)
  | EnumDestruct (branches : List EnumBranch) (defaultBranch : Option Expression)
      (discriminant : Expression) (typName : String)
  | EnumInstance (instanceName : String) (typName : String)
  | FunctionExpression (value : Fun)
  | Let (body : Expression) (lval : LeftValue) (value : Expression)
  | RecordInstance (fields : List RecordField) (record : String)
  | RecordProjection (field : String) (object : Expression) (record : String)
  | RecordUpdate (field : String) (object : Expression) (record : String) (update : Expression)
  | SumDestruct (branches : List SumBranch) (defaultBranch : Option Expression)
      (discriminant : Expression) (sum : String)
  | SumInstance (constr : String) (fields : List RecordField) (sum : String)
  | TypeCastExpression (expression : Expression) (typeAnnot : Typ)
  | UnaryExpression (argument : Expression) (operator : String)
  | Variable (name : String)

/-- A branch of `EnumDestruct`: `{body, names}`. -/
inductive EnumBranch where
  | mk (body : Expression) (names : List String)

/-- A branch of `SumDestruct`: `{body, fields, name}`. -/
inductive SumBranch where
  | mk (body : Expression) (fields : List LeftValueRecordField) (name : String)

/-- A field of a record or sum instance: `{name, value}`. -/
inductive RecordField where
  | mk (name : String) (value : Expression)

/-- Source `expression.ts`, `Fun`. -/
inductive Fun where
  | mk (arguments : List FunArgument) (body : Expression) (returnTyp : Option Typ)
      (typParameters : List String)

end

def EnumBranch.body : EnumBranch → Expression
  | .mk b _ => b

def EnumBranch.names : EnumBranch → List String
  | .mk _ n => n

def SumBranch.body : SumBranch → Expression
  | .mk b _ _ => b

def SumBranch.fields : SumBranch → List LeftValueRecordField
  | .mk _ f _ => f

def SumBranch.name : SumBranch → String
  | .mk _ _ n => n

def RecordField.name : RecordField → String
  | .mk n _ => n

def RecordField.value : RecordField → Expression
  | .mk _ v => v

/-- The reserved unit value `tt` (`Variable("tt")`). -/
def Expression.tt : Expression := .Variable ("tt")

/-- Source `ts.isBindingName`: an identifier or a binding pattern. -/
def Node.isBindingName : Node → Bool
  | .identifier _ | .objectBindingPattern _ | .arrayBindingPattern => true
  | _ => false

/-- Source `ts.isDefaultClause`. -/
def Node.isDefaultClause : Node → Bool
  | .defaultClause _ => true
  | _ => false

/-- Source `expression.ts`: `compilePrefixUnaryOperator`. -/
def Expression.compilePrefixUnaryOperator (operator : UnOp) : String :=
  match operator with
  | .plusPlus => ("++")
  | .minusMinus => ("--")
  | .exclamation => ("!")
  | .tilde => ("~")
  | .plus => ("+")
  | .minus => ("-")

/-- Source `expression.ts`: `getStringOfStringLiteral(expression)`. -/
def Expression.getStringOfStringLiteral (expression : Node) : String × List Diag :=
  match expression with
  | .stringLiteral text => (text, [])
  | _ => Error.raise ("expected_string") expression ("Expected a string literal")

/-- Source `expression.ts`: `getLeftValueRecordFields(pattern)` — here over the
pattern's `elements` list.  `defaultErrorValue` is `{name: 'name',
variable: 'variable'}`. -/
def Expression.getLeftValueRecordFields (elements : List Node) :
    List LeftValueRecordField × List Diag :=
  match elements with
  | [] => ([], [])
  | property :: rest =>
      let (f, d1) :=
        match property with
        | .bindingElement dotDotDot opropertyName name =>
            if dotDotDot then
              Error.raise (⟨("name"), ("variable")⟩ : LeftValueRecordField) property
                ("Unhandled rest element for record destructuring")
            else if name.isBindingName then
              let (nm, dn) := Identifier.compile name
              let (pn, dp) :=
                match opropertyName with
                | some propertyName => Identifier.compile propertyName
                | none => (nm, [])
              ((⟨pn, nm⟩ : LeftValueRecordField), dn ++ dp)
            else
              Error.raise (⟨("name"), ("variable")⟩ : LeftValueRecordField) name
                ("Expected an identifier")
        | _ =>
            -- a pattern element that is not a binding element: the source
            -- reads `property.dotDotDotToken`/`property.name` on it; modelled
            -- as the final raise
            Error.raise (⟨("name"), ("variable")⟩ : LeftValueRecordField) property
              ("Expected an identifier")
      let (fs, d2) := Expression.getLeftValueRecordFields rest
      (f :: fs, d1 ++ d2)

/-- Source `expression.ts`: `compileLVal(lval)`.  The object-pattern fallthrough on
a node that is no binding name at all would abort in the host on
`lval.elements`; modelled as an empty record pattern. -/
def Expression.compileLVal (getTypName : Node → String) (lval : Node) : LeftValue × List Diag :=
  match lval with
  | .arrayBindingPattern =>
      Error.raise (.Variable ("array") : LeftValue) lval ("Unhandled array patterns")
  | .identifier text => (.Variable text, [])
  | .objectBindingPattern elements =>
      let typName := getTypName lval
      let (fields, d) := Expression.getLeftValueRecordFields elements
      (.Record fields typName, d)
  | _ =>
      let typName := getTypName lval
      (.Record [] typName, [])

/-- Source `expression.ts`, `FieldsDestructuringFromHeadStatement`. -/
structure FieldsDestructuring where
  fields : List LeftValueRecordField
  trailingStatements : List Node

/-- Source `sizeOf` distributes over list append (up to the `+1` for the two
nils). -/
theorem sizeOf_node_list_append (l1 l2 : List Node) :
    sizeOf (l1 ++ l2) + 1 = sizeOf l1 + sizeOf l2 := by
  induction l1 with
  | nil => simp; omega
  | cons h t ih => simp [List.cons_append]; omega

/-- Source `expression.ts`: `getFieldsDestructuringFromHeadStatement(statements,
discriminantName)`.  A head block is flattened in place; a head local
declaration of exactly the scrutinee identifier against an object pattern
yields that pattern's fields and drops the declaration; everything else is
`noDestructuring` (empty fields, the statement list unchanged). -/
def Expression.getFieldsDestructuringFromHeadStatement (statements : List Node)
    (discriminantName : String) : FieldsDestructuring × List Diag :=
  match statements with
  | [] => (⟨[], []⟩, [])
  | headStatement :: rest =>
      match headStatement with
      | .block bs =>
          Expression.getFieldsDestructuringFromHeadStatement (bs ++ rest) discriminantName
      | .variableStatement decls =>
          match decls with
          | [] =>
              Error.raise (⟨[], headStatement :: rest⟩ : FieldsDestructuring) headStatement
                ("Expected at least one definition")
          | _ :: _ :: _ =>
              Error.raise (⟨[], headStatement :: rest⟩ : FieldsDestructuring) headStatement
                ("Expected a single definition of variable")
          | [.variableDeclaration name _otyp oinit] =>
              match oinit with
              | some (.identifier nm) =>
                  if nm = discriminantName then
                    match name with
                    | .objectBindingPattern elems =>
                        let (fields, d) := Expression.getLeftValueRecordFields elems
                        (⟨fields, rest⟩, d)
                    | _ =>
                        Error.raise (⟨[], headStatement :: rest⟩ : FieldsDestructuring) name
                          ("Expected an object pattern to destructure a sum type")
                  else (⟨[], headStatement :: rest⟩, [])
              | some _ => (⟨[], headStatement :: rest⟩, [])
              | none => (⟨[], headStatement :: rest⟩, [])
          | [_] =>
              -- an ill-kinded declaration node: the source reads `.initializer`
              -- on it; falls through to `noDestructuring`
              (⟨[], headStatement :: rest⟩, [])
      | _ => (⟨[], headStatement :: rest⟩, [])
  termination_by sizeOf statements
  decreasing_by
    have h := sizeOf_node_list_append bs rest
    simp_all
    omega

/-- Every `sizeOf` of a list of nodes is positive. -/
theorem sizeOf_node_list_pos (l : List Node) : 1 ≤ sizeOf l := by
  cases l with
  | nil => simp
  | cons h t => simp; omega

/-- Source `sizeOf` of an appended node list, in rewrite form. -/
theorem sizeOf_node_list_append2 (l1 l2 : List Node) :
    sizeOf (l1 ++ l2) = sizeOf l1 + sizeOf l2 - 1 := by
  have h := sizeOf_node_list_append l1 l2
  omega

/-- The trailing statements returned by
`getFieldsDestructuringFromHeadStatement` are never larger than the input
list (blocks are flattened, the head declaration may be dropped). -/
theorem Expression.getFields_trailing_sizeOf_le :
    ∀ (statements : List Node) (discriminantName : String),
    sizeOf (Expression.getFieldsDestructuringFromHeadStatement statements
      discriminantName).1.trailingStatements ≤ sizeOf statements
  | [], _ => by
      simp [Expression.getFieldsDestructuringFromHeadStatement]
  | p :: rest, discriminantName => by
      cases p
      case block bs =>
        have h1 := Expression.getFields_trailing_sizeOf_le (bs ++ rest) discriminantName
        have h2 := sizeOf_node_list_append bs rest
        rw [Expression.getFieldsDestructuringFromHeadStatement.eq_def]
        first
        | (simp
           omega)
        | simp
      case variableStatement decls =>
        rw [Expression.getFieldsDestructuringFromHeadStatement.eq_def]
        repeat' split
        all_goals simp_all [Error.raise]
        all_goals (try omega)
        all_goals
          try (rename_i elems _
               rcases h : Expression.getLeftValueRecordFields elems with ⟨fs, ds⟩
               simp [h]
               omega)
      all_goals first
        | (rw [Expression.getFieldsDestructuringFromHeadStatement.eq_def]
           simp)
        | rw [Expression.getFieldsDestructuringFromHeadStatement.eq_def]
  termination_by statements _ => sizeOf statements
  decreasing_by
    all_goals (simp [sizeOf_node_list_append2, List.cons.sizeOf_spec, Node.block.sizeOf_spec]
               <;> omega)

/-- Source `fun.parameters.map((parameter) => ({name: Identifier.compile(parameter.name),
typ: parameter.type ? Typ.compile(parameter.type) : null}))`.  A node that is
not a parameter declaration has no `name`; it is handed to
`Identifier.compile` itself, which raises. -/
def Expression.compileFunParams (parameters : List Node) : List FunArgument × List Diag :=
  match parameters with
  | [] => ([], [])
  | p :: rest =>
      let (a, d1) :=
        match p with
        | .parameter name otyp =>
            let (nm, dn) := Identifier.compile name
            let (t, dt) :=
              match otyp with
              | some ty =>
                  let (t, d) := Typ.compile ty
                  (some t, d)
              | none => ((none : Option Typ), ([] : List Diag))
            ((⟨nm, t⟩ : FunArgument), dn ++ dt)
        | other =>
            let (nm, dn) := Identifier.compile other
            ((⟨nm, none⟩ : FunArgument), dn)
      let (as_, d2) := Expression.compileFunParams rest
      (a :: as_, d1 ++ d2)

mutual

/-- Source `expression.ts`: `compile(expression, expectedAsTyp?)`, the chain of
`ts.isX` tests in source order.  Field evaluation order of each returned
object literal fixes the diagnostics order. -/
def Expression.compile (getTypName : Node → String) (expression : Node)
    (expectedAsTyp : Option Node) : Expression × List Diag :=
  match expression with
  | .arrayLiteralExpression elements =>
      let (es, d) := Expression.compileList getTypName elements
      (.ArrayExpression es, d)
  | .arrowFunction parameters typeParameters body =>
      let (f, d) := Expression.compileFun getTypName (.arrowFunction parameters typeParameters body)
      (.FunctionExpression f, d)
  | .asExpression e ty => Expression.compile getTypName e (some ty)
  | .binaryExpression left operatorText right =>
      let (l, d1) := Expression.compile getTypName left none
      let (r, d2) := Expression.compile getTypName right none
      (.BinaryExpression l operatorText r, d1 ++ d2)
  | .falseKeyword => (.Constant (.bool false), [])
  | .trueKeyword => (.Constant (.bool true), [])
  | .callExpression callee args =>
      let (as_, d1) := Expression.compileList getTypName args
      let (c, d2) := Expression.compile getTypName callee none
      (.CallExpression as_ c, d1 ++ d2)
  | .conditionalExpression condition whenTrue whenFalse =>
      let (alt, d1) := Expression.compile getTypName whenFalse none
      let (cons, d2) := Expression.compile getTypName whenTrue none
      let (test, d3) := Expression.compile getTypName condition none
      (.ConditionalExpression alt cons test, d1 ++ d2 ++ d3)
  | .functionExpression parameters typeParameters body =>
      let (f, d) := Expression.compileFun getTypName
        (.functionExpression parameters typeParameters body)
      (.FunctionExpression f, d)
  | .identifier text => (.Variable text, [])
  | .propertyAccessExpression obj name =>
      let (field, d1) := Identifier.compile name
      let (o, d2) := Expression.compile getTypName obj none
      (.RecordProjection field o (getTypName obj), d1 ++ d2)
  | .nullKeyword => (Expression.tt, [])
  | .numericLiteral text => (.Constant (.num text), [])
  | .objectLiteralExpression properties =>
      if properties.isEmpty then (Expression.tt, [])
      else
        let ((names, fields, spreads), d1) :=
          Expression.objectLiteralFold getTypName properties [] [] []
        let typName :=
          match expectedAsTyp with
          | some t => getTypName t
          | none => getTypName (.objectLiteralExpression properties)
        if 2 ≤ names.length then
          (Expression.tt, d1 ++ [⟨("Multiple type names"), .objectLiteralExpression properties⟩])
        else if 2 ≤ spreads.length then
          (Expression.tt, d1 ++ [⟨("Multiple spreads"), .objectLiteralExpression properties⟩])
        else
          match names.head? with
          | none =>
              match spreads.head? with
              | none => (.RecordInstance fields typName, d1)
              | some spread =>
                  (fields.foldl (fun accumulator field =>
                    .RecordUpdate field.name accumulator typName field.value) spread, d1)
          | some n0 =>
              if spreads.length = 0 then (.SumInstance n0 fields typName, d1)
              else
                (Expression.tt,
                 d1 ++ [⟨("Spread elements in sum types are not handled"),
                   .objectLiteralExpression properties⟩])
  | .stringLiteral text => (.Constant (.str text), [])
  | .prefixUnaryExpression operator operand =>
      let (arg, d) := Expression.compile getTypName operand none
      (.UnaryExpression arg (Expression.compilePrefixUnaryOperator operator), d)
  | _ => Error.raise Expression.tt expression ("Unhandled kind of expression")
  termination_by 2 * sizeOf expression + 1

/-- Source `expression.map((element) => compile(element))` over lists of argument or
element expressions. -/
def Expression.compileList (getTypName : Node → String) (expressions : List Node) :
    List Expression × List Diag :=
  match expressions with
  | [] => ([], [])
  | e :: rest =>
      let (x, d1) := Expression.compile getTypName e none
      let (xs, d2) := Expression.compileList getTypName rest
      (x :: xs, d1 ++ d2)
  termination_by 2 * sizeOf expressions

/-- Source `expression.ts`: `compileFun(fun)` — `returnTyp` is the source's
`null /* TODO */`. -/
def Expression.compileFun (getTypName : Node → String) (fn : Node) : Fun × List Diag :=
  match fn with
  | .arrowFunction parameters typeParameters body
  | .functionExpression parameters typeParameters body =>
      let (args, d1) := Expression.compileFunParams parameters
      let (b, d2) :=
        match body with
        | .block bs => Expression.compileStatements getTypName bs
        | other => Expression.compile getTypName other none
      let (tps, d3) := Typ.compileTypeParamNames typeParameters
      (Fun.mk args b none tps, d1 ++ d2 ++ d3)
  | .functionDeclaration _ parameters typeParameters body =>
      let (args, d1) := Expression.compileFunParams parameters
      let (b, d2) :=
        match body with
        | .block bs => Expression.compileStatements getTypName bs
        | other => Expression.compile getTypName other none
      let (tps, d3) := Typ.compileTypeParamNames typeParameters
      (Fun.mk args b none tps, d1 ++ d2 ++ d3)
  | _ => (Fun.mk [] Expression.tt none [], [])
  termination_by 2 * sizeOf fn

/-- Source `expression.ts`: `compileStatements(statements)` — the right fold over a
statement list with block flattening, switch reconstruction and `Let`
chaining.  A switch or return statement ends the sequence (trailing
statements are discarded by the source). -/
def Expression.compileStatements (getTypName : Node → String) (statements : List Node) :
    Expression × List Diag :=
  match statements with
  | [] => (Expression.tt, [])
  | statement :: rest =>
      match statement with
      | .block bs => Expression.compileStatements getTypName (bs ++ rest)
      | .returnStatement (some e) => Expression.compile getTypName e none
      | .returnStatement none => (Expression.tt, [])
      | .switchStatement (.propertyAccessExpression expression nameNode) clauses =>
          let (field, d1) := Identifier.compile nameNode
          if field = ("type") then
            match expression with
            | .identifier discriminantName =>
                let (branches, d2) := Expression.sumCaseClauses getTypName clauses discriminantName
                let (defaultBranch, d3) := Expression.defaultBranchOf getTypName clauses
                let (discriminant, d4) :=
                  Expression.compile getTypName (.identifier discriminantName) none
                (.SumDestruct branches defaultBranch discriminant
                   (getTypName (.identifier discriminantName)),
                 d1 ++ d2 ++ d3 ++ d4)
            | _ =>
                let (r, d2) := Expression.compileStatements getTypName rest
                (r, d1 ++ d2 ++
                  [⟨("Expected a switch on an identifier to destructure a sum type"), expression⟩])
          else
            let (r, d2) := Expression.compileStatements getTypName rest
            (r, d1 ++ d2 ++
              [⟨("Expected an access on the `type` field to destructure a sum type"),
                .switchStatement (.propertyAccessExpression expression nameNode) clauses⟩])
      | .switchStatement expression clauses =>
          let ((accumulatedNames, caseClauses), d2) :=
            Expression.enumFoldClauses getTypName clauses [] []
          let branches := caseClauses ++
            (if accumulatedNames.isEmpty then []
             else [EnumBranch.mk Expression.tt accumulatedNames])
          let (defaultBranch, d3) := Expression.defaultBranchOf getTypName clauses
          let (discriminant, d4) := Expression.compile getTypName expression none
          (.EnumDestruct branches defaultBranch discriminant (getTypName expression),
           d2 ++ d3 ++ d4)
      | .variableStatement decls =>
          match decls with
          | [] =>
              let (r, d) := Expression.compileStatements getTypName rest
              (r, d ++ [⟨("Expected at least one definition"), .variableStatement decls⟩])
          | _ :: _ :: _ =>
              let (r, d) := Expression.compileStatements getTypName rest
              (r, d ++ [⟨("Expected exactly one definition"), .variableStatement decls⟩])
          | [.variableDeclaration name otyp oinit] =>
              let (body, db) := Expression.compileStatements getTypName rest
              let (lv, dl) := Expression.compileLVal getTypName name
              let (v, dv) :=
                match oinit with
                | some init => Expression.compile getTypName init none
                | none =>
                    Error.raise Expression.tt (.variableDeclaration name otyp oinit)
                      ("Expected a definition with a value")
              (.Let body lv v, db ++ dl ++ dv)
          | [_] =>
              -- an ill-kinded declaration node: the source reads `.name` on
              -- it (host crash); modelled as a placeholder binding
              let (body, db) := Expression.compileStatements getTypName rest
              (.Let body (.Variable ("unknown")) Expression.tt, db)
      | _ =>
          let (r, d) := Expression.compileStatements getTypName rest
          (r, d ++ [⟨("Unhandled statement"), statement⟩])
  termination_by 2 * sizeOf statements
  decreasing_by
    all_goals simp_wf
    all_goals (try simp only [sizeOf_node_list_append2, List.cons.sizeOf_spec,
      Node.block.sizeOf_spec])
    all_goals (try simp_all)
    all_goals omega

/-- The `clauses.flatMap` of the sum-destructuring branch: one `SumBranch`
per case clause, default clauses skipped. -/
def Expression.sumCaseClauses (getTypName : Node → String) (clauses : List Node)
    (discriminantName : String) : List SumBranch × List Diag :=
  match clauses with
  | [] => ([], [])
  | clause :: restClauses =>
      match clause with
      | .caseClause cexpr cstmts =>
          let fdd := Expression.getFieldsDestructuringFromHeadStatement cstmts discriminantName
          let (body, d2) := Expression.compileStatements getTypName fdd.1.trailingStatements
          let (nm, d3) := Expression.getStringOfStringLiteral cexpr
          let (bs, d4) := Expression.sumCaseClauses getTypName restClauses discriminantName
          (SumBranch.mk body fdd.1.fields nm :: bs, fdd.2 ++ d2 ++ d3 ++ d4)
      | _ => Expression.sumCaseClauses getTypName restClauses discriminantName
  termination_by 2 * sizeOf clauses
  decreasing_by
    all_goals simp_wf
    · have h := Expression.getFields_trailing_sizeOf_le cstmts discriminantName
      simp_all
      omega
    all_goals omega

/-- Source `defaultClauses[0] !== undefined ? compileStatements(defaultClauses[0]
.statements.slice()) : null`, where `defaultClauses` filters the default
clauses: the first default clause's statements are compiled, if any. -/
def Expression.defaultBranchOf (getTypName : Node → String) (clauses : List Node) :
    Option Expression × List Diag :=
  match clauses with
  | [] => (none, [])
  | (.defaultClause ss) :: _ =>
      let (b, d) := Expression.compileStatements getTypName ss
      (some b, d)
  | _ :: restClauses => Expression.defaultBranchOf getTypName restClauses
  termination_by 2 * sizeOf clauses

/-- The `clauses.reduce` of the enum-destructuring branch: empty-bodied case
clauses accumulate their label; a non-empty case clause flushes the
accumulated labels plus its own into one branch; a default clause resets
the accumulator.  A node that is no clause at all cannot occur in a case
block (the source would abort on `clause.expression`); it is skipped. -/
def Expression.enumFoldClauses (getTypName : Node → String) (clauses : List Node)
    (accumulatedNames : List String) (caseClauses : List EnumBranch) :
    (List String × List EnumBranch) × List Diag :=
  match clauses with
  | [] => ((accumulatedNames, caseClauses), [])
  | clause :: restClauses =>
      match clause with
      | .defaultClause _ =>
          Expression.enumFoldClauses getTypName restClauses [] caseClauses
      | .caseClause cexpr cstmts =>
          let (name, d1) := Expression.getStringOfStringLiteral cexpr
          let currentAccumulatedNames := accumulatedNames ++ [name]
          if cstmts.isEmpty then
            let (r, d2) := Expression.enumFoldClauses getTypName restClauses
              currentAccumulatedNames caseClauses
            (r, d1 ++ d2)
          else
            let (body, d2) := Expression.compileStatements getTypName cstmts
            let (r, d3) := Expression.enumFoldClauses getTypName restClauses []
              (caseClauses ++ [EnumBranch.mk body currentAccumulatedNames])
            (r, d1 ++ d2 ++ d3)
      | _ => Expression.enumFoldClauses getTypName restClauses accumulatedNames caseClauses
  termination_by 2 * sizeOf clauses

/-- The `expression.properties.reduce` of the object-literal branch:
partition into `type` names, plain fields and spreads, with the source's
diagnostics. -/
def Expression.objectLiteralFold (getTypName : Node → String) (properties : List Node)
    (names : List String) (fields : List RecordField) (spreads : List Expression) :
    (List String × List RecordField × List Expression) × List Diag :=
  match properties with
  | [] => ((names, fields, spreads), [])
  | property :: restProps =>
      match property with
      | .propertyAssignment pname initializer =>
          let (nm, d1) := Identifier.compile pname
          if nm = ("type") then
            let (s, d2) := Expression.getStringOfStringLiteral initializer
            let (r, d3) :=
              Expression.objectLiteralFold getTypName restProps (names ++ [s]) fields spreads
            (r, d1 ++ d2 ++ d3)
          else
            let (v, d2) := Expression.compile getTypName initializer none
            let (r, d3) := Expression.objectLiteralFold getTypName restProps names
              (fields ++ [RecordField.mk nm v]) spreads
            (r, d1 ++ d2 ++ d3)
      | .shorthandPropertyAssignment pname =>
          let (nm, d1) := Identifier.compile pname
          let (r, d2) := Expression.objectLiteralFold getTypName restProps names
            (fields ++ [RecordField.mk nm (.Variable nm)]) spreads
          (r, d1 ++ d2)
      | .spreadAssignment sexpr =>
          if !names.isEmpty || !fields.isEmpty then
            let (r, d2) := Expression.objectLiteralFold getTypName restProps names fields spreads
            (r, [⟨("Spread element must be the first element of the object"), property⟩] ++ d2)
          else
            let (v, d1) := Expression.compile getTypName sexpr none
            let (r, d2) := Expression.objectLiteralFold getTypName restProps names fields
              (spreads ++ [v])
            (r, d1 ++ d2)
      | _ =>
          let (r, d2) := Expression.objectLiteralFold getTypName restProps names fields spreads
          (r, [⟨("Unhandled kind of property"), property⟩] ++ d2)
  termination_by 2 * sizeOf properties

end

/-- The top-level declaration algebra (`top-level-statement.ts`, `t`), field
order as in the source object literals. -/
inductive TopLevelStatement where
  | Definition (arguments : List FunArgument) (body : Expression) (name : String)
      (returnTyp : Option Typ) (typParameters : List String)
  | TypeDefinition (name : String) (typDefinition : TypDefinition)

/-- Source `node.declarationList.declarations.map(...)` of the top-level variable
statement case.  The source reads `declaration.initializer!`; an absent
initializer would abort the host, modelled as `tt` with no diagnostic. -/
def TopLevelStatement.compileDeclarations (getTypName : Node → String)
    (declarations : List Node) : List TopLevelStatement × List Diag :=
  match declarations with
  | [] => ([], [])
  | declaration :: rest =>
      let (s, d1) :=
        match declaration with
        | .variableDeclaration name otyp oinit =>
            let (body, db) :=
              match oinit with
              | some init => Expression.compile getTypName init otyp
              | none => (Expression.tt, ([] : List Diag))  -- `initializer!` absent: host crash
            let (nm, dn) := Identifier.compile name
            ((.Definition [] body nm none [] : TopLevelStatement), db ++ dn)
        | other =>
            -- an ill-kinded declaration node: the source reads `.initializer`
            -- and `.name` on it (host crash); `Identifier.compile` raises
            let (nm, dn) := Identifier.compile other
            ((.Definition [] Expression.tt nm none [] : TopLevelStatement), dn)
      let (ss, d2) := TopLevelStatement.compileDeclarations getTypName rest
      (s :: ss, d1 ++ d2)

/-- Source `top-level-statement.ts`: `compile(node)`. -/
def TopLevelStatement.compile (getTypName : Node → String) (node : Node) :
    List TopLevelStatement × List Diag :=
  match node with
  | .variableStatement declarations =>
      TopLevelStatement.compileDeclarations getTypName declarations
  | .functionDeclaration oname parameters typeParameters body =>
      let (args, d1) := Expression.compileFunParams parameters
      let (b, d2) :=
        match body with
        | .block bs => Expression.compileStatements getTypName bs
        | _ => (Expression.tt, ([] : List Diag))  -- `node.body!.statements`: host crash
      let (nm, d3) :=
        match oname with
        | some n => Identifier.compile n
        | none => (("anonymousFunction"), ([] : List Diag))
      let (tps, d4) := Typ.compileTypeParamNames typeParameters
      ([.Definition args b nm none tps], d1 ++ d2 ++ d3 ++ d4)
  | .typeAliasDeclaration name ty =>
      let (nm, d1) := Identifier.compile name
      let (td, d2) := TypDefinition.compile ty
      ([.TypeDefinition nm td], d1 ++ d2)
  | _ => Error.raise [] node ("Expected a top-level statement")

/-- The layout document algebra (`doc.ts`, a wrapper around the host's
pretty-printing primitives).  A host array of documents is `concat`; a bare
string is `text`. -/
inductive Doc where
  | text (s : String)
  | line
  | softline
  | hardline
  | group (d : Doc)
  | indent (d : Doc)
  | concat (ds : List Doc)

/-- Source `doc.ts`: `paren(needParens, doc)` — wrap in grouped parentheses exactly
when the flag is set. -/
def Doc.paren (needParens : Bool) (doc : Doc) : Doc :=
  if needParens then .group (.concat [.text ("("), doc, .text (")")]) else doc

/-- The host's `join(sep, docs)`: the documents interspersed with the
separator. -/
def Doc.join (sep : Doc) (docs : List Doc) : Doc :=
  .concat (docs.intersperse sep)

def Fun.arguments : Fun → List FunArgument
  | .mk a _ _ _ => a

def Fun.body : Fun → Expression
  | .mk _ b _ _ => b

def Fun.returnTyp : Fun → Option Typ
  | .mk _ _ r _ => r

def Fun.typParameters : Fun → List String
  | .mk _ _ _ t => t

mutual

/-- Source `typ.ts`: `print(needParens, typ)`. -/
def Typ.print (needParens : Bool) (typ : Typ) : Doc :=
  match typ with
  | .Function params returnTyp typParams =>
      Doc.paren needParens (.group (.concat (
        (if typParams.length ≠ 0 then
          [Doc.group (.concat [.text ("forall"), .line, .text ("\x7b"),
            .indent (.group (.concat ([Doc.softline] ++
              (typParams.map fun typParam => Doc.concat [.text typParam, .line]) ++
              [Doc.group (.concat [.text (":"), .line, .text ("Type")])]))),
            .softline, .text ("\x7d"), .text (","), .line])]
         else []) ++
        ((Typ.printListTrue params).map fun d =>
          Doc.group (.concat [d, .line, .text ("->"), .line])) ++
        [Typ.print true returnTyp])))
  | .Implicit => .group (.text ("_"))
  | .Tuple [] => .group (.text ("unit"))
  | .Tuple params =>
      Doc.paren needParens (.group (Doc.join (.concat [.line, .text ("*"), .line])
        (Typ.printListTrue params)))
  | .Variable name params =>
      Doc.paren (needParens && params.length != 0)
        (.group (.concat [.text name,
          .indent (.concat ((Typ.printListTrue params).map fun d => Doc.concat [.line, d]))]))
  termination_by sizeOf typ

/-- Source `typ.params.map((param) => print(true, param))`. -/
def Typ.printListTrue (params : List Typ) : List Doc :=
  match params with
  | [] => []
  | p :: rest => Typ.print true p :: Typ.printListTrue rest
  termination_by sizeOf params

end

/-- Source `typ.ts`: `printImplicitTyps(names)`. -/
def Typ.printImplicitTyps (names : List String) : Doc :=
  .group (.concat [.text ("\x7b"),
    .indent (.concat [.softline, Doc.join .line (names.map Doc.text), .line,
      .group (.concat [.text (":"), .line, .text ("Type")])]),
    .softline, .text ("\x7d")])

/-- Source `expression.ts`: `printFunArguments(funArguments)` (an array of `[line,
argument]` pieces). -/
def Expression.printFunArguments (funArguments : List FunArgument) : Doc :=
  .concat (funArguments.map fun a =>
    Doc.concat [.line,
      match a.typ with
      | some t =>
          .group (.concat [.text ("("), .text a.name, .line, .text (":"), .line,
            Typ.print false t, .text (")")])
      | none => .text a.name])

/-- Source `expression.ts`: `printCallExpression(needParens, callee, args)`. -/
def Expression.printCallExpression (needParens : Bool) (callee : Doc) (args : List Doc) : Doc :=
  Doc.paren needParens (.group (.indent (Doc.join .line (callee :: args))))

/-- Source `expression.ts`: `printRecordInstance(record, fields)` — `record` is
`null` for an anonymous record. -/
def Expression.printRecordInstance (record : Option String)
    (fields : List (String × Doc)) : Doc :=
  .group (.concat [.text ("\x7b|"),
    .indent (.concat (fields.map fun f =>
      Doc.concat [.line,
        .group (.concat [
          .group (.concat [.text (match record with
            | some r => r ++ (".") ++ f.1
            | none => f.1), .line, .text (":=")]),
          .indent (.concat [.line, f.2, .text (";")])])])),
    .line, .text ("|\x7d")])

/-- Source `expression.ts`: `printLeftValue(lval, withQuote)`. -/
def Expression.printLeftValue (lval : LeftValue) (withQuote : Bool) : Doc :=
  match lval with
  | .Record fields record =>
      if fields.isEmpty then .concat [.text ("_")]
      else
        .concat ((if withQuote then [Doc.text ("\x27")] else []) ++
          [Expression.printRecordInstance (some record)
            (fields.map fun f => (f.name, Doc.text f.varName))])
  | .Variable name => .concat [.text name]

/-- Source `expression.ts`: `printMatch(discriminant, branches, defaultBranch,
typName)` — each branch is a body with its pattern list, a pattern being an
optional field list (enum patterns have none) with the constructor name. -/
def Expression.printMatch (discriminant : Doc)
    (branches : List (Doc × List (Option (List LeftValueRecordField) × String)))
    (defaultBranch : Option Doc) (typName : String) : Doc :=
  .group (.concat (
    [Doc.group (.concat [.text ("match"), .line, discriminant, .line, .text ("with")]),
     Doc.hardline] ++
    (branches.map fun b =>
      Doc.group (.concat [
        Doc.join .line (b.2.map fun pat =>
          Doc.group (.concat (
            [Doc.text ("|"), .line, .text (typName ++ (".") ++ pat.2)] ++
            (match pat.1 with
             | some fields =>
                 [Doc.line, Expression.printLeftValue
                   (.Record fields (typName ++ (".") ++ pat.2)) false]
             | none => [])))),
        .line, .text ("=>"), .indent (.concat [.line, b.1]), .hardline])) ++
    (match defaultBranch with
     | some d =>
         [Doc.group (.concat [
           .group (.concat [.text ("|"), .line, .text ("_"), .line, .text ("=>")]),
           .indent (.concat [.line, d]), .hardline])]
     | none => []) ++
    [Doc.text ("end")]))

/-- Source `JSON.stringify` on a constant value (string escaping abstracted away,
numbers keep their source text). -/
def ConstVal.jsonStringify : ConstVal → String
  | .bool true => ("true")
  | .bool false => ("false")
  | .num s => s
  | .str s => ("\"") ++ s ++ ("\"")

mutual

/-- Source `expression.ts`: `print(needParens, expression)` — the renderer over the
target expression algebra, translated case by case. -/
def Expression.print (needParens : Bool) (expression : Expression) : Doc :=
  match expression with
  | .ArrayExpression [] => .text ("[]")
  | .ArrayExpression elements =>
      .group (.concat [.text ("["),
        .indent (.concat [.line,
          Doc.join (.concat [.text (";"), .line]) (Expression.printListFalse elements)]),
        .line, .text ("]")])
  | .BinaryExpression left operator right =>
      Doc.paren needParens (.group (Doc.join .line
        [Expression.print true left, .text operator, Expression.print true right]))
  | .CallExpression arguments callee =>
      Expression.printCallExpression needParens (Expression.print true callee)
        (Expression.printListTrue arguments)
  | .ConditionalExpression alternate consequent test =>
      Doc.paren needParens (.group (.concat [
        .group (.concat [.text ("if"), .line, Expression.print false test, .line,
          .text ("then")]),
        .indent (.concat [.line, Expression.print false consequent]),
        .line, .text ("else"),
        .indent (.concat [.line, Expression.print false alternate])]))
  | .Constant value => .text value.jsonStringify
  | .EnumDestruct branches defaultBranch discriminant typName =>
      Expression.printMatch (Expression.print false discriminant)
        (Expression.printEnumBranches branches)
        (match defaultBranch with
         | some d => some (Expression.print false d)
         | none => none)
        typName
  | .EnumInstance instanceName typName => .text (typName ++ (".") ++ instanceName)
  | .FunctionExpression (.mk arguments body _returnTyp typParameters) =>
      Doc.paren needParens (.group (.concat [
        .group (.concat [.text ("fun"),
          .indent (.concat (
            (if typParameters.length ≠ 0 then
              [Doc.line, Typ.printImplicitTyps typParameters]
             else []) ++
            [Expression.printFunArguments arguments])),
          .line, .text ("=>")]),
        .indent (.concat [.line, Expression.print false body])]))
  | .Let body lval value =>
      .group (.concat [
        .group (.concat [.text ("let"), .line, Expression.printLeftValue lval true, .line,
          .text (":=")]),
        .indent (.concat [.line, Expression.print false value]),
        .line, .text ("in"), .hardline, Expression.print false body])
  | .RecordInstance fields record =>
      Expression.printRecordInstance (some record) (Expression.printRecordFieldDocs fields)
  | .RecordProjection field object record =>
      .group (.concat [Expression.print true object, .softline, .text (".("),
        .indent (.group (.concat [.softline, .text record, .text ("."), .text field])),
        .softline, .text (")")])
  | .RecordUpdate field object record update =>
      Expression.printCallExpression needParens (.text (record ++ (".set_") ++ field))
        [Expression.print true object, Expression.print true update]
  | .SumDestruct branches defaultBranch discriminant sum =>
      Expression.printMatch (Expression.print false discriminant)
        (Expression.printSumBranches branches)
        (match defaultBranch with
         | some d => some (Expression.print false d)
         | none => none)
        sum
  | .SumInstance constr [] sum =>
      Doc.paren needParens (.group (.concat
        [Doc.text (sum ++ (".") ++ constr), .line, Doc.text ("tt")]))
  | .SumInstance constr fields sum =>
      Doc.paren needParens (.group (.concat
        [Doc.text (sum ++ (".") ++ constr), .line,
         Expression.printRecordInstance (some (sum ++ (".") ++ constr))
           (Expression.printRecordFieldDocs fields)]))
  | .TypeCastExpression e typeAnnot =>
      .group (.concat [.text ("("), .softline, Expression.print true e, .line, .text (":"),
        .line, Typ.print false typeAnnot, .softline, .text (")")])
  | .UnaryExpression argument operator =>
      Doc.paren needParens (.group (.concat [.text operator, .line,
        Expression.print true argument]))
  | .Variable name => .text name
  termination_by sizeOf expression

def Expression.printListFalse (elements : List Expression) : List Doc :=
  match elements with
  | [] => []
  | e :: rest => Expression.print false e :: Expression.printListFalse rest
  termination_by sizeOf elements

def Expression.printListTrue (elements : List Expression) : List Doc :=
  match elements with
  | [] => []
  | e :: rest => Expression.print true e :: Expression.printListTrue rest
  termination_by sizeOf elements

def Expression.printEnumBranches (branches : List EnumBranch) :
    List (Doc × List (Option (List LeftValueRecordField) × String)) :=
  match branches with
  | [] => []
  | .mk body names :: rest =>
      (Expression.print false body, names.map fun name => (none, name)) ::
        Expression.printEnumBranches rest
  termination_by sizeOf branches

def Expression.printSumBranches (branches : List SumBranch) :
    List (Doc × List (Option (List LeftValueRecordField) × String)) :=
  match branches with
  | [] => []
  | .mk body fields name :: rest =>
      (Expression.print false body, [(some fields, name)]) ::
        Expression.printSumBranches rest
  termination_by sizeOf branches

def Expression.printRecordFieldDocs (fields : List RecordField) : List (String × Doc) :=
  match fields with
  | [] => []
  | .mk name value :: rest =>
      (name, Expression.print false value) :: Expression.printRecordFieldDocs rest
  termination_by sizeOf fields

end

/-- The success condition of `getFieldsDestructuringFromHeadStatement`,
after transparently flattening head blocks: the head statement is a
single-binder local declaration whose initializer is exactly the scrutinee
identifier and whose left side is an object destructuring pattern. -/
def Expression.matchesDestructuring (statements : List Node) (discriminantName : String) : Bool :=
  match statements with
  | [] => false
  | headStatement :: rest =>
      match headStatement with
      | .block bs => Expression.matchesDestructuring (bs ++ rest) discriminantName
      | .variableStatement
          [.variableDeclaration (.objectBindingPattern _) _ (some (.identifier nm))] =>
          nm == discriminantName
      | _ => false
  termination_by sizeOf statements
  decreasing_by
    all_goals (simp [sizeOf_node_list_append2, List.cons.sizeOf_spec, Node.block.sizeOf_spec]
               <;> omega)

/-- When the head statement is not a destructuring declaration of the
scrutinee, `getFieldsDestructuringFromHeadStatement` yields no fields and
its trailing statements compile to the same expression (with the same
diagnostics) as the original statement list. -/
theorem Expression.getFields_noMatch :
    ∀ (statements : List Node) (discriminantName : String),
    Expression.matchesDestructuring statements discriminantName = false →
    (Expression.getFieldsDestructuringFromHeadStatement statements
      discriminantName).1.fields = []
    ∧ ∀ (getTypName : Node → String),
      Expression.compileStatements getTypName
        (Expression.getFieldsDestructuringFromHeadStatement statements
          discriminantName).1.trailingStatements
      = Expression.compileStatements getTypName statements
  | [], discriminantName => by
      intro _
      constructor
      · simp [Expression.getFieldsDestructuringFromHeadStatement]
      · intro getTypName
        simp [Expression.getFieldsDestructuringFromHeadStatement]
  | p :: rest, discriminantName => by
      intro h
      cases p
      case block bs =>
        have hm : Expression.matchesDestructuring (bs ++ rest) discriminantName = false := by
          rw [Expression.matchesDestructuring.eq_def] at h
          simpa using h
        have ih := Expression.getFields_noMatch (bs ++ rest) discriminantName hm
        constructor
        · rw [Expression.getFieldsDestructuringFromHeadStatement.eq_def]
          simpa using ih.1
        · intro getTypName
          have hc : Expression.compileStatements getTypName (Node.block bs :: rest)
              = Expression.compileStatements getTypName (bs ++ rest) := by
            simp only [Expression.compileStatements]
          rw [Expression.getFieldsDestructuringFromHeadStatement.eq_def]
          simp only []
          rw [hc]
          exact ih.2 getTypName
      case variableStatement decls =>
        rw [Expression.matchesDestructuring.eq_def] at h
        rw [Expression.getFieldsDestructuringFromHeadStatement.eq_def]
        repeat' split
        all_goals simp_all [Error.raise]
      all_goals
        (rw [Expression.getFieldsDestructuringFromHeadStatement.eq_def]
         simp)
  termination_by statements _ => sizeOf statements
  decreasing_by
    all_goals (simp [sizeOf_node_list_append2, List.cons.sizeOf_spec, Node.block.sizeOf_spec]
               <;> omega)

/-- C3: for a case clause of a switch on `x.type` whose first statement
(after transparently flattening nested blocks) is not a single-binder local
declaration destructuring the scrutinee `x` through an object pattern, the
recovered field-binding list is empty and the branch body is the
compilation of the clause's entire original statement list — no statement
is dropped; the resulting `SumDestruct` branch therefore carries the empty
field list and the full body. -/
theorem c3_sum_branch_no_destructuring (getTypName : Node → String)
    (statements : List Node) (discriminantName : String)
    (h : Expression.matchesDestructuring statements discriminantName = false) :
    (Expression.getFieldsDestructuringFromHeadStatement statements
      discriminantName).1.fields = []
    ∧ Expression.compileStatements getTypName
        (Expression.getFieldsDestructuringFromHeadStatement statements
          discriminantName).1.trailingStatements
      = Expression.compileStatements getTypName statements
    ∧ ∀ (lbl : String),
      (Expression.compileStatements getTypName
        [.switchStatement (.propertyAccessExpression (.identifier discriminantName)
          (.identifier ("type"))) [.caseClause (.stringLiteral lbl) statements]]).1
      = .SumDestruct
          [SumBranch.mk (Expression.compileStatements getTypName statements).1 [] lbl]
          none (.Variable discriminantName) (getTypName (.identifier discriminantName)) := by
  obtain ⟨h1, h2⟩ := Expression.getFields_noMatch statements discriminantName h
  refine ⟨h1, h2 getTypName, fun lbl => ?_⟩
  simp [Expression.compileStatements, Expression.sumCaseClauses, Expression.defaultBranchOf,
    Expression.compile, Identifier.compile, Expression.getStringOfStringLiteral, h1,
    h2 getTypName]

/-- C3 witness at a concrete clause body: a single `return y;` statement is
not a destructuring declaration, so the branch keeps the whole body and no
fields. -/
theorem c3_sum_branch_no_destructuring_witness :
    Expression.matchesDestructuring [.returnStatement (some (.identifier ("y")))] ("s") = false
    ∧ ((Expression.getFieldsDestructuringFromHeadStatement
          [.returnStatement (some (.identifier ("y")))] ("s")).1.fields = []
       ∧ Expression.compileStatements (fun _ => ("T"))
           (Expression.getFieldsDestructuringFromHeadStatement
             [.returnStatement (some (.identifier ("y")))] ("s")).1.trailingStatements
         = Expression.compileStatements (fun _ => ("T"))
             [.returnStatement (some (.identifier ("y")))]
       ∧ ∀ (lbl : String),
         (Expression.compileStatements (fun _ => ("T"))
           [.switchStatement (.propertyAccessExpression (.identifier ("s"))
             (.identifier ("type")))
             [.caseClause (.stringLiteral lbl)
               [.returnStatement (some (.identifier ("y")))]]]).1
         = .SumDestruct
             [SumBranch.mk (Expression.compileStatements (fun _ => ("T"))
                 [.returnStatement (some (.identifier ("y")))]).1 [] lbl]
             none (.Variable ("s")) (("T"))) :=
  ⟨by simp [Expression.matchesDestructuring],
   c3_sum_branch_no_destructuring (fun _ => ("T"))
     [.returnStatement (some (.identifier ("y")))] ("s")
     (by simp [Expression.matchesDestructuring])⟩

/-- A case clause with a string-literal label and an empty body, as used by
enum fallthrough grouping. -/
def Expression.emptyCaseClause (label : String) : Node :=
  .caseClause (.stringLiteral label) []

/-- Folding a run of empty-bodied case clauses only accumulates their
labels, in source order, with no diagnostics and no new branch. -/
theorem Expression.enumFold_empty_run :
    ∀ (labels : List String) (getTypName : Node → String) (acc : List String)
      (cases : List EnumBranch),
    Expression.enumFoldClauses getTypName (labels.map Expression.emptyCaseClause) acc cases
    = ((acc ++ labels, cases), [])
  | [], getTypName, acc, cases => by simp [Expression.enumFoldClauses]
  | l :: rest, getTypName, acc, cases => by
      have ih := Expression.enumFold_empty_run rest getTypName (acc ++ [l]) cases
      simp [Expression.enumFoldClauses, Expression.emptyCaseClause,
        Expression.getStringOfStringLiteral, ih]

/-- Folding a run of empty-bodied case clauses followed by one non-empty
case clause flushes exactly one branch carrying all the accumulated labels
plus the final one, in source order. -/
theorem Expression.enumFold_empty_run_then_flush
    (labels : List String) (getTypName : Node → String) (lbl : String) (ss : List Node)
    (hss : ss ≠ []) (acc : List String) (cases : List EnumBranch) :
    Expression.enumFoldClauses getTypName
      (labels.map Expression.emptyCaseClause ++ [.caseClause (.stringLiteral lbl) ss]) acc cases
    = (([], cases ++ [EnumBranch.mk (Expression.compileStatements getTypName ss).1
        (acc ++ labels ++ [lbl])]),
       (Expression.compileStatements getTypName ss).2) := by
  induction labels generalizing acc with
  | nil =>
      have hne : ss.isEmpty = false := by
        cases ss with
        | nil => exact absurd rfl hss
        | cons a t => simp
      simp [Expression.enumFoldClauses, Expression.getStringOfStringLiteral, hne]
  | cons l rest ih =>
      have ih2 := ih (acc ++ [l])
      simp [Expression.enumFoldClauses, Expression.emptyCaseClause,
        Expression.getStringOfStringLiteral] at ih2 ⊢
      rw [ih2]

/-- A default clause wipes any labels accumulated from an immediately
preceding run of empty-bodied case clauses: folding the run followed by the
default clause is the same as folding the default clause alone. -/
theorem Expression.enumFold_empty_then_default
    (getTypName : Node → String) (labels : List String) (ds after : List Node)
    (acc : List String) (cases : List EnumBranch) :
    Expression.enumFoldClauses getTypName
      (labels.map Expression.emptyCaseClause ++ (.defaultClause ds) :: after) acc cases
    = Expression.enumFoldClauses getTypName ((.defaultClause ds) :: after) acc cases := by
  induction labels generalizing acc with
  | nil => simp
  | cons l rest ih =>
      have ih2 := ih (acc ++ [l])
      simp [Expression.enumFoldClauses, Expression.emptyCaseClause,
        Expression.getStringOfStringLiteral] at ih2 ⊢
      rw [ih2]

/-- Inserting a run of empty-bodied case clauses immediately before a
default clause, anywhere in the clause list, leaves the enum fold
unchanged: the default clause resets the accumulator either way. -/
theorem Expression.enumFold_default_absorbs :
    ∀ (before : List Node) (getTypName : Node → String) (labels : List String)
      (ds after : List Node) (acc : List String) (cases : List EnumBranch),
    Expression.enumFoldClauses getTypName
      (before ++ labels.map Expression.emptyCaseClause ++ (.defaultClause ds) :: after)
      acc cases
    = Expression.enumFoldClauses getTypName (before ++ (.defaultClause ds) :: after) acc cases
  | [], getTypName, labels, ds, after, acc, cases => by
      simpa using Expression.enumFold_empty_then_default getTypName labels ds after acc cases
  | c :: rest, getTypName, labels, ds, after, acc, cases => by
      cases c
      case defaultClause ss2 =>
        have ih := Expression.enumFold_default_absorbs rest getTypName labels ds after [] cases
        simp only [List.cons_append, Expression.enumFoldClauses]
        exact ih
      case caseClause cexpr cstmts =>
        rcases hs : Expression.getStringOfStringLiteral cexpr with ⟨nm, d1⟩
        by_cases hempty : cstmts.isEmpty
        · have ih := Expression.enumFold_default_absorbs rest getTypName labels ds after
            (acc ++ [nm]) cases
          simp only [List.cons_append, Expression.enumFoldClauses, hs, hempty, if_true]
          rw [ih]
        · simp only [Bool.not_eq_true] at hempty
          have ih := Expression.enumFold_default_absorbs rest getTypName labels ds after []
            (cases ++ [EnumBranch.mk (Expression.compileStatements getTypName cstmts).1
              (acc ++ [nm])])
          simp only [List.cons_append, Expression.enumFoldClauses, hs, hempty,
            Bool.false_eq_true, if_false]
          rw [ih]
      all_goals
        (have ih := Expression.enumFold_default_absorbs rest getTypName labels ds after acc cases
         simp only [List.cons_append, Expression.enumFoldClauses]
         exact ih)
  termination_by before _ _ _ _ _ _ => sizeOf before

/-- A run of empty-bodied case clauses contributes no default branch. -/
theorem Expression.defaultBranchOf_empty_run (getTypName : Node → String)
    (labels : List String) (cs : List Node) :
    Expression.defaultBranchOf getTypName (labels.map Expression.emptyCaseClause ++ cs)
    = Expression.defaultBranchOf getTypName cs := by
  induction labels with
  | nil => simp
  | cons l rest ih =>
      simp only [List.map_cons, List.cons_append, Expression.emptyCaseClause,
        Expression.defaultBranchOf]
      exact ih

/-- Inserting a run of empty-bodied case clauses immediately before a
default clause does not change which default clause is the first one. -/
theorem Expression.defaultBranchOf_insert :
    ∀ (before : List Node) (getTypName : Node → String) (labels : List String)
      (ds after : List Node),
    Expression.defaultBranchOf getTypName
      (before ++ labels.map Expression.emptyCaseClause ++ (.defaultClause ds) :: after)
    = Expression.defaultBranchOf getTypName (before ++ (.defaultClause ds) :: after)
  | [], getTypName, labels, ds, after => by
      simpa using Expression.defaultBranchOf_empty_run getTypName labels
        ((.defaultClause ds) :: after)
  | c :: rest, getTypName, labels, ds, after => by
      cases c
      case defaultClause ss2 =>
        simp [Expression.defaultBranchOf]
      all_goals
        (have ih := Expression.defaultBranchOf_insert rest getTypName labels ds after
         simp only [List.cons_append, Expression.defaultBranchOf]
         exact ih)
  termination_by before _ _ _ _ => sizeOf before

/-- C4: a run of N empty-bodied case clauses followed by one non-empty case
clause compiles to an `EnumDestruct` with exactly one branch whose names
list is those N+1 labels in source order and whose body is the compilation
of the non-empty clause's statements; an accumulator left non-empty after
the last clause becomes one extra branch with body `tt`. -/
theorem c4_enum_fallthrough_grouping (getTypName : Node → String) (s : String)
    (labels : List String) (lbl : String) (ss : List Node)
    (labels2 : List String) (hss : ss ≠ []) (hl2 : labels2 ≠ []) :
    (Expression.compileStatements getTypName [.switchStatement (.identifier s)
        (labels.map Expression.emptyCaseClause ++ [.caseClause (.stringLiteral lbl) ss])]).1
      = .EnumDestruct
          [EnumBranch.mk (Expression.compileStatements getTypName ss).1 (labels ++ [lbl])]
          none (.Variable s) (getTypName (.identifier s))
    ∧ (Expression.compileStatements getTypName [.switchStatement (.identifier s)
        (labels2.map Expression.emptyCaseClause)]).1
      = .EnumDestruct [EnumBranch.mk Expression.tt labels2]
          none (.Variable s) (getTypName (.identifier s)) := by
  constructor
  · have hf := Expression.enumFold_empty_run_then_flush labels getTypName lbl ss hss [] []
    have hd : Expression.defaultBranchOf getTypName
        (labels.map Expression.emptyCaseClause ++ [.caseClause (.stringLiteral lbl) ss])
        = (none, []) := by
      rw [Expression.defaultBranchOf_empty_run]
      simp [Expression.defaultBranchOf]
    simp [Expression.compileStatements, hf, hd, Expression.compile]
  · have hf := Expression.enumFold_empty_run labels2 getTypName [] []
    have hd : Expression.defaultBranchOf getTypName
        (labels2.map Expression.emptyCaseClause) = (none, []) := by
      have := Expression.defaultBranchOf_empty_run getTypName labels2 []
      simpa [Expression.defaultBranchOf] using this
    have hne : labels2.isEmpty = false := by
      cases labels2 with
      | nil => exact absurd rfl hl2
      | cons a t => simp
    simp [Expression.compileStatements, hf, hd, hne, Expression.compile]

/-- C4 witness: `case "aa": case "bb": return; ` groups into one branch
`["aa", "bb"]`, and a lone trailing empty `case "cc":` becomes a `tt`
branch. -/
theorem c4_enum_fallthrough_grouping_witness :
    ([Node.returnStatement none] ≠ ([] : List Node))
    ∧ ([("cc")] ≠ ([] : List String))
    ∧ ((Expression.compileStatements (fun _ => ("E")) [.switchStatement (.identifier ("e"))
          ([("aa")].map Expression.emptyCaseClause ++
            [.caseClause (.stringLiteral ("bb")) [.returnStatement none]])]).1
        = .EnumDestruct
            [EnumBranch.mk (Expression.compileStatements (fun _ => ("E"))
                [.returnStatement none]).1 ([("aa")] ++ [("bb")])]
            none (.Variable ("e")) (("E"))
       ∧ (Expression.compileStatements (fun _ => ("E")) [.switchStatement (.identifier ("e"))
            ([("cc")].map Expression.emptyCaseClause)]).1
          = .EnumDestruct [EnumBranch.mk Expression.tt [("cc")]]
              none (.Variable ("e")) (("E"))) :=
  ⟨by simp, by simp,
   c4_enum_fallthrough_grouping (fun _ => ("E")) ("e") [("aa")] ("bb")
     [.returnStatement none] [("cc")] (by simp) (by simp)⟩

/-- C9: in enum destructuring, the labels of empty-bodied case clauses that
immediately precede a default clause are discarded: the compiled switch is
identical (branches, default branch, diagnostics and all) to the one
without those clauses, so the labels appear in no branch and in no trailing
`tt` branch. -/
theorem c9_default_resets_accumulator (getTypName : Node → String) (s : String)
    (before : List Node) (labels : List String) (ds after : List Node) :
    Expression.compileStatements getTypName [.switchStatement (.identifier s)
        (before ++ labels.map Expression.emptyCaseClause ++ (.defaultClause ds) :: after)]
    = Expression.compileStatements getTypName [.switchStatement (.identifier s)
        (before ++ (.defaultClause ds) :: after)] := by
  have hf := Expression.enumFold_default_absorbs before getTypName labels ds after [] []
  have hd := Expression.defaultBranchOf_insert before getTypName labels ds after
  simp only [Expression.compileStatements, Expression.compile]
  rw [hf, hd]

mutual

/-- No `Tuple` anywhere in the type has exactly one parameter. -/
def Typ.noUnaryTuple : Typ → Bool
  | .Function params returnTyp _ => Typ.noUnaryTupleList params && Typ.noUnaryTuple returnTyp
  | .Implicit => true
  | .Tuple params => (params.length != 1) && Typ.noUnaryTupleList params
  | .Variable _ params => Typ.noUnaryTupleList params
  termination_by t => sizeOf t

def Typ.noUnaryTupleList : List Typ → Bool
  | [] => true
  | t :: rest => Typ.noUnaryTuple t && Typ.noUnaryTupleList rest
  termination_by l => sizeOf l

end

mutual

/-- Every `Variable` anywhere in the type with a non-empty parameter list
is named `list`. -/
def Typ.onlyListParams : Typ → Bool
  | .Function params returnTyp _ => Typ.onlyListParamsList params && Typ.onlyListParams returnTyp
  | .Implicit => true
  | .Tuple params => Typ.onlyListParamsList params
  | .Variable name params => (params.isEmpty || name == ("list")) && Typ.onlyListParamsList params
  termination_by t => sizeOf t

def Typ.onlyListParamsList : List Typ → Bool
  | [] => true
  | t :: rest => Typ.onlyListParams t && Typ.onlyListParamsList rest
  termination_by l => sizeOf l

end

/-- Both structural invariants, on a classification result: a `Rest` carries
no compiled type yet. -/
def PlainTypOrRest.bothInvariants : PlainTypOrRest → Bool
  | .PlainTyp t => t.noUnaryTuple && t.onlyListParams
  | .Rest _ => true

mutual

/-- Every type produced by `compileIfPlainTyp` satisfies both structural
invariants. -/
theorem Typ.compileIfPlainTyp_invariants (n : Node) :
    ((Typ.compileIfPlainTyp n).1).bothInvariants = true := by
      cases n
      case arrayType et =>
        have h := Typ.compile_invariants et
        rcases he : Typ.compile et with ⟨t, d⟩
        rw [he] at h
        simp [Typ.compileIfPlainTyp, he, PlainTypOrRest.bothInvariants, Typ.noUnaryTuple,
          Typ.noUnaryTupleList, Typ.onlyListParams, Typ.onlyListParamsList]
        simp at h
        exact ⟨h.1, h.2⟩
      case functionType parameters returnType typeParameters =>
        have hp := Typ.compileParamTypes_invariants parameters
        have hr := Typ.compile_invariants returnType
        rcases hep : Typ.compileParamTypes parameters with ⟨ps, dp⟩
        rcases her : Typ.compile returnType with ⟨rt, dr⟩
        rw [hep] at hp
        rw [her] at hr
        simp at hp hr
        simp [Typ.compileIfPlainTyp, hep, her, PlainTypOrRest.bothInvariants, Typ.noUnaryTuple,
          Typ.onlyListParams, hp.1, hp.2, hr.1, hr.2]
      case typeReference typeName typeArguments =>
        rcases hI : Identifier.compile typeName with ⟨nm, d⟩
        simp [Typ.compileIfPlainTyp, hI, PlainTypOrRest.bothInvariants, Typ.noUnaryTuple,
          Typ.noUnaryTupleList, Typ.onlyListParams, Typ.onlyListParamsList]
      case tupleType elements =>
        match elements with
        | [e] =>
            have h := Typ.compile_invariants e
            rcases he : Typ.compile e with ⟨t, d⟩
            rw [he] at h
            simp at h
            simp [Typ.compileIfPlainTyp, he, PlainTypOrRest.bothInvariants, h.1, h.2]
        | [] =>
            simp [Typ.compileIfPlainTyp, Typ.compileList, PlainTypOrRest.bothInvariants,
              Typ.noUnaryTuple, Typ.noUnaryTupleList, Typ.onlyListParams,
              Typ.onlyListParamsList]
        | e1 :: e2 :: rest =>
            have h := Typ.compileList_invariants (e1 :: e2 :: rest)
            rcases he : Typ.compileList (e1 :: e2 :: rest) with ⟨ts, d⟩
            rw [he] at h
            simp [Typ.compileIfPlainTyp, he, PlainTypOrRest.bothInvariants, Typ.noUnaryTuple,
              Typ.onlyListParams, h.1, h.2.1]
            have hlen := h.2.2
            simp at hlen
            omega
      case typeLiteral members =>
        by_cases hm : members.isEmpty
        · simp [Typ.compileIfPlainTyp, hm, PlainTypOrRest.bothInvariants, Typ.unit,
            Typ.noUnaryTuple, Typ.noUnaryTupleList, Typ.onlyListParams, Typ.onlyListParamsList]
        · simp [Typ.compileIfPlainTyp, hm, PlainTypOrRest.bothInvariants]
      all_goals
        simp [Typ.compileIfPlainTyp, PlainTypOrRest.bothInvariants, Typ.unit, Error.raise,
          Typ.noUnaryTuple, Typ.noUnaryTupleList, Typ.onlyListParams, Typ.onlyListParamsList]
  termination_by (sizeOf n, 0)

/-- Every type produced by `Typ.compile` satisfies both structural
invariants. -/
theorem Typ.compile_invariants (n : Node) :
    ((Typ.compile n).1).noUnaryTuple = true
      ∧ ((Typ.compile n).1).onlyListParams = true := by
      have h := Typ.compileIfPlainTyp_invariants n
      rcases hc : Typ.compileIfPlainTyp n with ⟨c, d⟩
      rw [hc] at h
      cases c
      case PlainTyp t =>
        simp [PlainTypOrRest.bothInvariants] at h
        simp [Typ.compile, hc, h.1, h.2]
      case Rest restNode =>
        cases restNode
        all_goals
          simp [Typ.compile, hc, Error.raise, Typ.unit, Typ.noUnaryTuple,
            Typ.noUnaryTupleList, Typ.onlyListParams, Typ.onlyListParamsList]
  termination_by (sizeOf n, 1)

/-- Every type list produced by `compileParamTypes` satisfies both
structural invariants pointwise. -/
theorem Typ.compileParamTypes_invariants (l : List Node) :
    Typ.noUnaryTupleList (Typ.compileParamTypes l).1 = true
      ∧ Typ.onlyListParamsList (Typ.compileParamTypes l).1 = true := by
      match l with
      | [] => simp [Typ.compileParamTypes, Typ.noUnaryTupleList, Typ.onlyListParamsList]
      | p :: rest =>
      have hr := Typ.compileParamTypes_invariants rest
      rcases her : Typ.compileParamTypes rest with ⟨ts, d⟩
      rw [her] at hr
      simp at hr
      cases p
      case parameter name otyp =>
        cases otyp
        case none =>
          simp [Typ.compileParamTypes, her, Typ.noUnaryTupleList, Typ.onlyListParamsList,
            Typ.noUnaryTuple, Typ.onlyListParams, hr.1, hr.2]
        case some ty =>
          have ht := Typ.compile_invariants ty
          rcases hety : Typ.compile ty with ⟨t, dt⟩
          rw [hety] at ht
          simp at ht
          simp [Typ.compileParamTypes, her, hety, Typ.noUnaryTupleList, Typ.onlyListParamsList,
            ht.1, ht.2, hr.1, hr.2]
      all_goals
        simp [Typ.compileParamTypes, her, Typ.noUnaryTupleList, Typ.onlyListParamsList,
          Typ.noUnaryTuple, Typ.onlyListParams, hr.1, hr.2]
  termination_by (sizeOf l, 0)

/-- Every type list produced by `compileList` satisfies both structural
invariants pointwise, and has the same length as its input. -/
theorem Typ.compileList_invariants (l : List Node) :
    Typ.noUnaryTupleList (Typ.compileList l).1 = true
      ∧ Typ.onlyListParamsList (Typ.compileList l).1 = true
      ∧ (Typ.compileList l).1.length = l.length := by
      match l with
      | [] => simp [Typ.compileList, Typ.noUnaryTupleList, Typ.onlyListParamsList]
      | t :: rest =>
      have hr := Typ.compileList_invariants rest
      rcases her : Typ.compileList rest with ⟨ts, d⟩
      rw [her] at hr
      simp at hr
      have ht := Typ.compile_invariants t
      rcases het : Typ.compile t with ⟨t1, d1⟩
      rw [het] at ht
      simp at ht
      simp [Typ.compileList, her, het, Typ.noUnaryTupleList, Typ.onlyListParamsList,
        ht.1, ht.2, hr.1, hr.2.1, hr.2.2]
  termination_by (sizeOf l, 0)

end

/-- C5 (amended): the type compiler never constructs a `Tuple` with exactly
one parameter — a one-element tuple type compiles to its single element's
compilation with one diagnostic appended, and no `Tuple` subterm of any
output has exactly one parameter; a zero-member object type canonicalizes
to `Variable("unit", [])`, while a zero-element tuple type yields
`Tuple([])` (which the printer renders as `unit`). -/
theorem c5_tuple_invariants :
    (∀ (e : Node), Typ.compile (.tupleType [e])
      = ((Typ.compile e).1, (Typ.compile e).2 ++
          [⟨("Tuple types with exactly one element are not handled"), .tupleType [e]⟩]))
    ∧ Typ.compile (.typeLiteral []) = (Typ.unit, [])
    ∧ Typ.compile (.tupleType []) = (.Tuple [], [])
    ∧ ∀ (t : Node), ((Typ.compile t).1).noUnaryTuple = true := by
  refine ⟨fun e => ?_, ?_, ?_, fun t => (Typ.compile_invariants t).1⟩
  · rcases he : Typ.compile e with ⟨t, d⟩
    simp [Typ.compile, Typ.compileIfPlainTyp, he]
  · simp [Typ.compile, Typ.compileIfPlainTyp]
  · simp [Typ.compile, Typ.compileIfPlainTyp, Typ.compileList]

/-- C5 counterexample: compiling the zero-element tuple type yields
`Tuple([])`, not the claimed sentinel `Variable("unit", [])`. -/
theorem c5_counterexample :
    (Typ.compile (.tupleType [])).1 = .Tuple []
    ∧ (Typ.compile (.tupleType [])).1 ≠ .Variable ("unit") [] := by
  constructor
  · simp [Typ.compile, Typ.compileIfPlainTyp, Typ.compileList]
  · simp [Typ.compile, Typ.compileIfPlainTyp, Typ.compileList]

/-- C10: a named type reference compiles to `Variable` with the referenced
name and an empty parameter list — its type arguments are never compiled —
and every `Variable` with non-empty parameters anywhere in any output of
the type compiler is the `list` type built from array-type syntax. -/
theorem c10_type_reference_ignores_arguments :
    (∀ (name : String) (typeArguments : List Node),
      Typ.compile (.typeReference (.identifier name) typeArguments)
        = (.Variable name [], []))
    ∧ ∀ (t : Node), ((Typ.compile t).1).onlyListParams = true := by
  refine ⟨fun name typeArguments => ?_, fun t => (Typ.compile_invariants t).2⟩
  simp [Typ.compile, Typ.compileIfPlainTyp, Identifier.compile]

/-- C1: the classifier routes a single object-literal type with a
string-literal `type` member to the `Record` branch, not the claimed
one-constructor `Sum`, because `typ-definition.ts` line 106 hands the
property node itself (never an identifier) to `Identifier.compile`; the
`type` member itself is kept as a record field. -/
theorem c1_single_object_sum_dispatch_dead :
    (TypDefinition.compile (.typeLiteral
        [.propertySignature (.identifier ("type"))
           (some (.literalType (.stringLiteral ("Foo")))),
         .propertySignature (.identifier ("value")) (some .numberKeyword)])).1
      = .Record [⟨("type"), .Implicit⟩, ⟨("value"), .Variable ("Z") []⟩]
    ∧ ∀ (constructors : List Constructor),
      (TypDefinition.compile (.typeLiteral
          [.propertySignature (.identifier ("type"))
             (some (.literalType (.stringLiteral ("Foo")))),
           .propertySignature (.identifier ("value")) (some .numberKeyword)])).1
        ≠ .Sum constructors := by
  constructor
  · simp [TypDefinition.compile, Typ.compileIfPlainTyp, TypDefinition.withATypeField,
      TypDefinition.recordFields, Identifier.compile, Typ.compile, Error.raise]
  · intro constructors
    simp [TypDefinition.compile, Typ.compileIfPlainTyp, TypDefinition.withATypeField,
      TypDefinition.recordFields, Identifier.compile, Typ.compile, Error.raise]

/-- C2: classifying a one-member union is not equivalent to classifying the
member directly, for either shape: a union of one object-literal with a
`type` member classifies as a one-constructor `Sum` while the member alone
classifies as `Record` (the single-object `type` detection is dead, see
`typ-definition.ts` line 106), and a union of one string-literal type
classifies as a one-name `Enum` while the member alone falls through
`compileIfPlainTyp` and classifies as `Synonym(Implicit)`. -/
theorem c2_single_member_union_not_equivalent :
    (TypDefinition.compile (.unionType
        [.typeLiteral [.propertySignature (.identifier ("type"))
          (some (.literalType (.stringLiteral ("Foo"))))]])).1
      = .Sum [⟨("Foo"), []⟩]
    ∧ (TypDefinition.compile (.typeLiteral [.propertySignature (.identifier ("type"))
        (some (.literalType (.stringLiteral ("Foo"))))])).1
      = .Record [⟨("type"), .Implicit⟩]
    ∧ (TypDefinition.compile (.unionType [.literalType (.stringLiteral ("On"))])).1
      = .Enum [("On")]
    ∧ (TypDefinition.compile (.literalType (.stringLiteral ("On")))).1
      = .Synonym .Implicit := by
  refine ⟨?_, ?_, ?_, ?_⟩
  · simp [TypDefinition.compile, Typ.compileIfPlainTyp, TypDefinition.compileSumType,
      TypDefinition.compileConstructorList, TypDefinition.compileConstructor,
      TypDefinition.partitionMembers, TypDefinition.compileConstructorFields,
      TypDefinition.getStringOfLiteralType, Identifier.compile]
  · simp [TypDefinition.compile, Typ.compileIfPlainTyp, TypDefinition.withATypeField,
      TypDefinition.recordFields, Identifier.compile, Typ.compile, Error.raise]
  · simp [TypDefinition.compile, Typ.compileIfPlainTyp, TypDefinition.compileStringEnum,
      TypDefinition.stringsOfLiteralTypes, TypDefinition.getStringOfLiteralType]
  · simp [TypDefinition.compile, Typ.compileIfPlainTyp, Error.raise]

/-- C8: classifying the fully supported record type alias `{ a: string }`
appends an `Expected an identifier` diagnostic (from the dead `type`-member
probe at `typ-definition.ts` line 106), so a run with zero unsupported
constructs does not leave the diagnostics sink empty. -/
theorem c8_supported_input_pollutes_diagnostics :
    TypDefinition.compile (.typeLiteral [.propertySignature (.identifier ("a"))
        (some .stringKeyword)])
      = (.Record [⟨("a"), .Variable ("string") []⟩],
         [⟨("Expected an identifier"),
           .propertySignature (.identifier ("a")) (some .stringKeyword)⟩])
    ∧ (TypDefinition.compile (.typeLiteral [.propertySignature (.identifier ("a"))
        (some .stringKeyword)])).2 ≠ [] := by
  constructor
  · simp [TypDefinition.compile, Typ.compileIfPlainTyp, TypDefinition.withATypeField,
      TypDefinition.recordFields, Identifier.compile, Typ.compile, Error.raise]
  · simp [TypDefinition.compile, Typ.compileIfPlainTyp, TypDefinition.withATypeField,
      TypDefinition.recordFields, Identifier.compile, Typ.compile, Error.raise]

/-- The default branch of a compiled switch is present exactly when the
clause list contains a default clause (of any body). -/
theorem Expression.defaultBranchOf_isSome_iff :
    ∀ (getTypName : Node → String) (clauses : List Node),
    ((Expression.defaultBranchOf getTypName clauses).1 ≠ none
      ↔ clauses.any Node.isDefaultClause)
  | getTypName, [] => by simp [Expression.defaultBranchOf]
  | getTypName, c :: rest => by
      cases c
      case defaultClause ss =>
        simp [Expression.defaultBranchOf, Node.isDefaultClause]
      all_goals
        (have ih := Expression.defaultBranchOf_isSome_iff getTypName rest
         simpa [Expression.defaultBranchOf, Node.isDefaultClause] using ih)
  termination_by _ clauses => sizeOf clauses

/-- C6 (amended): a switch on `x.type` compiles to a `SumDestruct` whose
`defaultBranch` is non-null exactly when the switch contains a default
clause — an empty-bodied default clause yields `defaultBranch = tt` rather
than leaving the branch absent. -/
theorem c6_default_branch_iff_default_clause (getTypName : Node → String) (x : String)
    (clauses : List Node) :
    (Expression.compileStatements getTypName
      [.switchStatement (.propertyAccessExpression (.identifier x) (.identifier ("type")))
        clauses]).1
    = .SumDestruct (Expression.sumCaseClauses getTypName clauses x).1
        (Expression.defaultBranchOf getTypName clauses).1 (.Variable x)
        (getTypName (.identifier x))
    ∧ ((Expression.defaultBranchOf getTypName clauses).1 ≠ none
        ↔ clauses.any Node.isDefaultClause) := by
  refine ⟨?_, Expression.defaultBranchOf_isSome_iff getTypName clauses⟩
  simp [Expression.compileStatements, Expression.compile, Identifier.compile]

/-- C6 counterexample: a switch on `x.type` whose only clause is a default
clause with an empty body still gets a default branch, namely `tt` — the
claim says it should be absent. -/
theorem c6_counterexample :
    (Expression.compileStatements (fun _ => ("T"))
      [.switchStatement (.propertyAccessExpression (.identifier ("x")) (.identifier ("type")))
        [.defaultClause []]]).1
    = .SumDestruct [] (some Expression.tt) (.Variable ("x")) ("T")
    ∧ (some Expression.tt ≠ (none : Option Expression)) := by
  constructor
  · simp [Expression.compileStatements, Expression.compile, Identifier.compile,
      Expression.sumCaseClauses, Expression.defaultBranchOf]
  · simp

/-- A document is never equal to a grouped wrap of itself (the wrap is
strictly larger). -/
theorem Doc.ne_paren_wrap (d a b : Doc) : Doc.group (Doc.concat [a, d, b]) ≠ d := by
  intro h
  have hs := congrArg sizeOf h
  simp at hs
  omega

/-- C7 (amended): `RecordInstance`, `EnumDestruct`, `SumDestruct`,
`Constant` and `Variable` never add parentheses regardless of the flag;
`BinaryExpression`, `UnaryExpression`, `ConditionalExpression`,
`SumInstance` and `FunctionExpression` add grouping parentheses exactly
when the parent passes `needsParens = true`; `TypeCastExpression` prints
its own parentheses regardless of the flag; and printing
`BinaryExpression(BinaryExpression(..), op, Constant)` with `needsParens =
false` never wraps the root and always wraps the binary left child. -/
theorem c7_paren_discipline :
    (∀ (fields : List RecordField) (record : String),
      Expression.print true (.RecordInstance fields record)
        = Expression.print false (.RecordInstance fields record))
    ∧ (∀ (branches : List EnumBranch) (db : Option Expression) (disc : Expression)
        (typName : String),
      Expression.print true (.EnumDestruct branches db disc typName)
        = Expression.print false (.EnumDestruct branches db disc typName))
    ∧ (∀ (branches : List SumBranch) (db : Option Expression) (disc : Expression)
        (sum : String),
      Expression.print true (.SumDestruct branches db disc sum)
        = Expression.print false (.SumDestruct branches db disc sum))
    ∧ (∀ (value : ConstVal),
      Expression.print true (.Constant value) = Expression.print false (.Constant value))
    ∧ (∀ (name : String),
      Expression.print true (.Variable name) = Expression.print false (.Variable name))
    ∧ (∀ (left : Expression) (operator : String) (right : Expression),
      Expression.print true (.BinaryExpression left operator right)
        = .group (.concat [.text ("("),
            Expression.print false (.BinaryExpression left operator right), .text (")")])
      ∧ Expression.print true (.BinaryExpression left operator right)
        ≠ Expression.print false (.BinaryExpression left operator right))
    ∧ (∀ (argument : Expression) (operator : String),
      Expression.print true (.UnaryExpression argument operator)
        = .group (.concat [.text ("("),
            Expression.print false (.UnaryExpression argument operator), .text (")")])
      ∧ Expression.print true (.UnaryExpression argument operator)
        ≠ Expression.print false (.UnaryExpression argument operator))
    ∧ (∀ (alternate consequent test : Expression),
      Expression.print true (.ConditionalExpression alternate consequent test)
        = .group (.concat [.text ("("),
            Expression.print false (.ConditionalExpression alternate consequent test),
            .text (")")])
      ∧ Expression.print true (.ConditionalExpression alternate consequent test)
        ≠ Expression.print false (.ConditionalExpression alternate consequent test))
    ∧ (∀ (constr : String) (fields : List RecordField) (sum : String),
      Expression.print true (.SumInstance constr fields sum)
        = .group (.concat [.text ("("),
            Expression.print false (.SumInstance constr fields sum), .text (")")])
      ∧ Expression.print true (.SumInstance constr fields sum)
        ≠ Expression.print false (.SumInstance constr fields sum))
    ∧ (∀ (value : Fun),
      Expression.print true (.FunctionExpression value)
        = .group (.concat [.text ("("),
            Expression.print false (.FunctionExpression value), .text (")")])
      ∧ Expression.print true (.FunctionExpression value)
        ≠ Expression.print false (.FunctionExpression value))
    ∧ (∀ (e : Expression) (typeAnnot : Typ),
      Expression.print true (.TypeCastExpression e typeAnnot)
        = Expression.print false (.TypeCastExpression e typeAnnot)
      ∧ Expression.print false (.TypeCastExpression e typeAnnot)
        = .group (.concat [.text ("("), .softline, Expression.print true e, .line,
            .text (":"), .line, Typ.print false typeAnnot, .softline, .text (")")]))
    ∧ (∀ (left : Expression) (operator : String) (right : Expression) (operator2 : String)
        (value : ConstVal),
      Expression.print false (.BinaryExpression (.BinaryExpression left operator right)
          operator2 (.Constant value))
        = .group (.concat [Expression.print true (.BinaryExpression left operator right),
            .line, .text operator2, .line,
            Expression.print true (.Constant value)])
      ∧ ∀ (d : Doc),
        Expression.print false (.BinaryExpression (.BinaryExpression left operator right)
            operator2 (.Constant value))
          ≠ .group (.concat [.text ("("), d, .text (")")])) := by
  refine ⟨fun fields record => by simp [Expression.print],
    fun branches db disc typName => by cases db <;> simp [Expression.print],
    fun branches db disc sum => by cases db <;> simp [Expression.print],
    fun value => by simp [Expression.print],
    fun name => by simp [Expression.print],
    fun left operator right => ⟨by simp [Expression.print, Doc.paren], ?_⟩,
    fun argument operator => ⟨by simp [Expression.print, Doc.paren], ?_⟩,
    fun alternate consequent test => ⟨by simp [Expression.print, Doc.paren], ?_⟩,
    fun constr fields sum => ⟨?_, ?_⟩,
    fun value => ⟨?_, ?_⟩,
    fun e typeAnnot => ⟨by simp [Expression.print], by simp [Expression.print]⟩,
    fun left operator right operator2 value => ⟨?_, fun d => ?_⟩⟩
  · rw [show Expression.print true (.BinaryExpression left operator right)
        = .group (.concat [.text ("("),
            Expression.print false (.BinaryExpression left operator right), .text (")")])
      from by simp [Expression.print, Doc.paren]]
    exact Doc.ne_paren_wrap _ _ _
  · rw [show Expression.print true (.UnaryExpression argument operator)
        = .group (.concat [.text ("("),
            Expression.print false (.UnaryExpression argument operator), .text (")")])
      from by simp [Expression.print, Doc.paren]]
    exact Doc.ne_paren_wrap _ _ _
  · rw [show Expression.print true (.ConditionalExpression alternate consequent test)
        = .group (.concat [.text ("("),
            Expression.print false (.ConditionalExpression alternate consequent test),
            .text (")")])
      from by simp [Expression.print, Doc.paren]]
    exact Doc.ne_paren_wrap _ _ _
  · cases fields with
    | nil => simp [Expression.print, Doc.paren]
    | cons f rest => simp [Expression.print, Doc.paren]
  · have hw : Expression.print true (.SumInstance constr fields sum)
        = .group (.concat [.text ("("),
            Expression.print false (.SumInstance constr fields sum), .text (")")]) := by
      cases fields with
      | nil => simp [Expression.print, Doc.paren]
      | cons f rest => simp [Expression.print, Doc.paren]
    rw [hw]
    exact Doc.ne_paren_wrap _ _ _
  · rcases value with ⟨arguments, body, returnTyp, typParameters⟩
    simp [Expression.print, Doc.paren]
  · have hw : Expression.print true (.FunctionExpression value)
        = .group (.concat [.text ("("),
            Expression.print false (.FunctionExpression value), .text (")")]) := by
      rcases value with ⟨arguments, body, returnTyp, typParameters⟩
      simp [Expression.print, Doc.paren]
    rw [hw]
    exact Doc.ne_paren_wrap _ _ _
  · simp [Expression.print, Doc.paren, Doc.join, List.intersperse]
  · simp [Expression.print, Doc.paren, Doc.join, List.intersperse]

/-- C7 counterexample: a `TypeCastExpression` is printed inside its own
parentheses even with `needsParens = false`, and the flag makes no
difference — parenthesization of a type cast is not governed by the flag. -/
theorem c7_counterexample :
    Expression.print true (.TypeCastExpression (.Variable ("x")) Typ.unit)
      = Expression.print false (.TypeCastExpression (.Variable ("x")) Typ.unit)
    ∧ Expression.print false (.TypeCastExpression (.Variable ("x")) Typ.unit)
      = .group (.concat [.text ("("), .softline, .text ("x"), .line, .text (":"), .line,
          .group (.concat [.text ("unit"), .indent (.concat [])]), .softline,
          .text (")")]) := by
  constructor
  · simp [Expression.print]
  · simp [Expression.print, Typ.print, Typ.unit, Typ.printListTrue, Doc.paren]
